import Mathlib

/-!
# ThisOrThat: the voting core

A shallow embedding of `src/backend/routes/polls.js` (the vote route, the two
read routes, poll creation, `mapPollRow`, `normalizeImageUrl`), of
`requireAuth` of `src/backend/middleware/auth.js`, and of the poll list of the
client in `src/frontend/app.js` (`refreshPolls`, the `poll:update` handler).

* The tables the routes touch are lists of rows; each SQL statement of the
  source is a function on those lists.  Ids are natural numbers: a path or
  header parameter is identified with the key it denotes.
* Handlers are functions from the database state and the request to the new
  state, the events emitted on the socket server and the response.
* What the sources do not hold is a parameter: `jwt.verify`, the URL parser,
  the failure of a store call, and the constraints of the schema (the foreign
  key of `votes.poll_id`, the insert into `polls`).
* JavaScript numbers are IEEE 754 binary64 values.  The values `mapPollRow`
  computes are non-negative, so a number is a mantissa and a binary exponent,
  and `/` and `*` round the exact quotient and product to 53 significant bits,
  ties to even.  The exponent range is not bounded: for counts below `2^53`
  every non-zero intermediate value of `mapPollRow` lies between `2^-53` and
  `2^60`, far from the subnormal and overflow ranges.  A count is identified
  with the number `Number` parses it to, which is exact below `2^53`.
-/

namespace ThisOrThat

/-! ## JavaScript values -/

/-- A JavaScript value as a JSON body field or a result column can hold it;
`object` stands for every array and object. -/
inductive JsValue where
  | undefined
  | null
  | bool (b : Bool)
  | number (n : Int)
  | string (s : String)
  | object
  deriving DecidableEq, Repr

/-- A non-negative binary64 number `m * 2^e`. -/
structure Double where
  m : Nat
  e : Int
  deriving DecidableEq, Repr

/-- The rational a `Double` denotes. -/
def Double.toRat (x : Double) : ℚ := (x.m : ℚ) * (2 : ℚ) ^ x.e

/-- Auxiliary for `ilog2`: halve until below 2, at most `fuel` times. -/
def ilog2Aux : Nat → Nat → Nat
  | 0, _ => 0
  | fuel + 1, n => if n < 2 then 0 else ilog2Aux fuel (n / 2) + 1

/-- Position of the leading bit: `2^(ilog2 n) ≤ n < 2^(ilog2 n + 1)` for `0 < n`. -/
def ilog2 (n : Nat) : Nat := ilog2Aux n n

/-- The integer nearest to `n / d`, ties to the even one. -/
def roundDiv (n d : Nat) : Nat :=
  let q := n / d
  let r := n % d
  if 2 * r < d then q else if d < 2 * r then q + 1 else if q % 2 = 0 then q else q + 1

/-- The binary64 number nearest to the rational `n / d` (round to nearest, ties
to even, 53 significant bits), for `0 < d`: `k` or `k - 1` is the exponent of the
leading bit of the quotient, and the mantissa is the quotient in units of the
last place, rounded. -/
def flQ (n d : Nat) : Double :=
  if n = 0 then ⟨0, 0⟩ else
  let k : Int := (ilog2 n : Int) - (ilog2 d : Int)
  let e0 : Int := if d * 2 ^ k.toNat ≤ n * 2 ^ (-k).toNat then k else k - 1
  let s : Int := e0 - 52
  ⟨roundDiv (n * 2 ^ (-s).toNat) (d * 2 ^ s.toNat), s⟩

/-- The number `Number(v)` of a count `v`. -/
def Number (v : Nat) : Double := ⟨v, 0⟩

/-- JavaScript `x / y` on non-negative numbers, `y` non-zero. -/
def fdiv (x y : Double) : Double :=
  flQ (x.m * 2 ^ (x.e - y.e).toNat) (y.m * 2 ^ (y.e - x.e).toNat)

/-- JavaScript `x * y` on non-negative numbers. -/
def fmul (x y : Double) : Double :=
  flQ (x.m * y.m * 2 ^ (x.e + y.e).toNat) (2 ^ (-(x.e + y.e)).toNat)

/-- JavaScript `Math.round(x)`: the integer nearest to `x`, ties towards positive
infinity, that is the floor of `x + 1/2`. -/
def mathRound (x : Double) : Nat :=
  (2 * x.m * 2 ^ x.e.toNat + 2 ^ (-x.e).toNat) / (2 * 2 ^ (-x.e).toNat)

/-- The expression `totalVotes ? Math.round((votes / totalVotes) * 100) : 0`. -/
def percentOf (votes totalVotes : Nat) : Nat :=
  if totalVotes = 0 then 0
  else mathRound (fmul (fdiv (Number votes) (Number totalVotes)) (Number 100))

/-- The percentage in the words of the specification: `total == 0 ? 0 :
round(votes / total * 100)` over the rationals, `round` to the nearest integer,
halves up. -/
def specPercent (votes total : Nat) : Nat :=
  if total = 0 then 0 else (2 * (100 * votes) + total) / (2 * total)

/-! ## Tables -/

/-- A row of `polls`. -/
structure PollRow where
  id : Nat
  question : String
  type : String
  option_a_text : Option String
  option_b_text : Option String
  option_a_image_url : Option String
  option_b_image_url : Option String
  status : String
  created_by : Nat
  ends_at : Option Nat
  created_at : Nat
  deriving DecidableEq, Repr

/-- A row of `votes`; its key `votes.id` is never null and is left out. -/
structure VoteRow where
  user_id : Nat
  poll_id : Nat
  option : String
  deriving DecidableEq, Repr

/-- The database state the vote route reads and writes. -/
structure Db where
  polls : List PollRow
  votes : List VoteRow
  deriving DecidableEq, Repr

/-- A result row of the aggregation queries: `polls.*` and the aggregate
columns.  `user_vote` is `undefined` when the query does not select it. -/
structure AggRow where
  poll : PollRow
  votes_a : Nat
  votes_b : Nat
  total_votes : Nat
  user_vote : JsValue
  deriving DecidableEq, Repr

/-- The rows `LEFT JOIN votes ON votes.poll_id = polls.id` attaches to a poll. -/
def joinedVotes (db : Db) (p : PollRow) : List VoteRow :=
  db.votes.filter (fun v => v.poll_id == p.id)

/-- The column `COALESCE(SUM(CASE WHEN votes.option = o THEN 1 ELSE 0 END), 0)`. -/
def sumOption (o : String) (vs : List VoteRow) : Nat :=
  (vs.map (fun v => if v.option == o then 1 else 0)).sum

/-- The column `COALESCE(COUNT(votes.id), 0)`. -/
def countVotes (vs : List VoteRow) : Nat := vs.length

/-- The largest of a list of strings as `MAX` returns it, `NULL` for none. -/
def sqlMax : List String → JsValue
  | [] => .null
  | s :: rest => .string (rest.foldl (fun m x => if m < x then x else m) s)

/-- The column `MAX(CASE WHEN votes.user_id = $1 THEN votes.option ELSE NULL END)`;
the parameter is `userId || null`. -/
def maxUserVote (viewer : Option Nat) (vs : List VoteRow) : JsValue :=
  sqlMax ((vs.filter (fun v => viewer == some v.user_id)).map (fun v => v.option))

/-- The select list the three aggregation queries share, for one poll of the
`GROUP BY polls.id`: `polls.*`, the two per-option sums and the row count; the
caller supplies the `user_vote` column. -/
def aggregateRow (db : Db) (p : PollRow) (userVote : JsValue) : AggRow :=
  { poll := p
    votes_a := sumOption "A" (joinedVotes db p)
    votes_b := sumOption "B" (joinedVotes db p)
    total_votes := countVotes (joinedVotes db p)
    user_vote := userVote }

/-- The query of `GET /:pollId` (lines 93-107). -/
def pollByIdQuery (db : Db) (viewer : Option Nat) (pollId : Nat) : List AggRow :=
  (db.polls.filter (fun p => p.id == pollId)).map (fun p =>
    aggregateRow db p (maxUserVote viewer (joinedVotes db p)))

/-- The recompute query of `POST /:pollId/vote` (lines 200-213): the same
counts, and no `user_vote` column. -/
def voteResultsQuery (db : Db) (pollId : Nat) : List AggRow :=
  (db.polls.filter (fun p => p.id == pollId)).map (fun p => aggregateRow db p .undefined)

/-! ## The poll view -/

/-- One option of a poll as `mapPollRow` returns it. -/
structure OptionView where
  text : Option String
  imageUrl : Option String
  deriving DecidableEq, Repr

/-- The `votes` and `percents` objects. -/
structure AB where
  a : Nat
  b : Nat
  deriving DecidableEq, Repr

/-- The object `mapPollRow` returns. -/
structure PollView where
  id : Nat
  question : String
  type : String
  optionA : OptionView
  optionB : OptionView
  status : String
  endsAt : Option Nat
  createdAt : Nat
  totalVotes : Nat
  votes : AB
  percents : AB
  userVote : JsValue
  deriving DecidableEq, Repr

/-- The function `mapPollRow` (lines 37-64). -/
def mapPollRow (row : AggRow) : PollView :=
  let totalVotes := row.total_votes
  let votesA := row.votes_a
  let votesB := row.votes_b
  let percentA := percentOf votesA totalVotes
  let percentB := percentOf votesB totalVotes
  { id := row.poll.id
    question := row.poll.question
    type := row.poll.type
    optionA := { text := row.poll.option_a_text, imageUrl := row.poll.option_a_image_url }
    optionB := { text := row.poll.option_b_text, imageUrl := row.poll.option_b_image_url }
    status := row.poll.status
    endsAt := row.poll.ends_at
    createdAt := row.poll.created_at
    totalVotes := totalVotes
    votes := { a := votesA, b := votesB }
    percents := { a := percentA, b := percentB }
    userVote := row.user_vote }

/-! ## The vote route -/

/-- What the route depends on outside the request: whether a socket server is
installed (`req.app.get("io")`), and whether the schema, which is not among the
sources, declares `votes.poll_id` a foreign key of `polls`. -/
structure App where
  broadcaster : Bool
  votesPollFk : Bool
  deriving DecidableEq, Repr

/-- A vote request after `requireAuth`: `req.user.id`, `req.params.pollId`,
`req.body.option`, and whether the store fails during this call. -/
structure VoteCall where
  userId : Nat
  pollId : Nat
  option : JsValue
  storageFails : Bool
  deriving DecidableEq, Repr

/-- A response body: `{ error }` or a poll view. -/
inductive Body where
  | error (msg : String)
  | view (v : PollView)
  deriving DecidableEq, Repr

/-- How a handler ends: it sends a response, or an exception leaves it and no
response is sent by it. -/
inductive Outcome where
  | response (status : Nat) (body : Body)
  | uncaught (msg : String)
  deriving DecidableEq, Repr

/-- The effect of one handler call. -/
structure HandlerResult where
  db : Db
  emitted : List PollView
  outcome : Outcome
  deriving DecidableEq, Repr

/-- The test `["A", "B"].includes(option)`: the option string when it is one of
the two. -/
def includesAB : JsValue → Option String
  | .string s => if s = "A" ∨ s = "B" then some s else none
  | _ => none

/-- The statement `INSERT INTO votes (user_id, poll_id, option) VALUES ($1, $2, $3)
ON CONFLICT (user_id, poll_id) DO NOTHING` (lines 187-194): a row whose pair is
taken is skipped; a new row is refused when the foreign key is declared and the
poll is missing. -/
def insertVote (app : App) (db : Db) (userId pollId : Nat) (option : String) :
    Except String Db :=
  if db.votes.any (fun v => v.user_id == userId && v.poll_id == pollId) then .ok db
  else if app.votesPollFk && !(db.polls.any (fun p => p.id == pollId)) then
    .error "foreign key violation"
  else .ok { db with votes := db.votes ++ [{ user_id := userId, poll_id := pollId, option := option }] }

/-- Modelled from the spec: `withTransaction` of `backend/db.js`, which is not
among the sources.  The body runs on the store and its writes are kept, or the
store fails or the body throws, and then nothing is changed and the error
reaches the caller. -/
def withTransaction (storageFails : Bool) (db : Db) (body : Db → Except String Db) :
    Except String Db :=
  if storageFails then .error "storage unavailable" else body db

/-- The handler of `POST /:pollId/vote` (lines 177-220). -/
def postVote (app : App) (db : Db) (call : VoteCall) : HandlerResult :=
  match includesAB call.option with
  | none =>
    { db := db, emitted := [],
      outcome := .response 400 (.error "Option must be \x27A\x27 or \x27B\x27.") }
  | some option =>
    match withTransaction call.storageFails db
        (fun d => insertVote app d call.userId call.pollId option) with
    | .error _ =>
      { db := db, emitted := [], outcome := .response 500 (.error "Failed to submit vote.") }
    | .ok db1 =>
      match (voteResultsQuery db1 call.pollId).head? with
      | none =>
        { db := db1, emitted := [],
          outcome := .uncaught "TypeError: Cannot read properties of undefined" }
      | some row =>
        { db := db1
          emitted := if app.broadcaster then [mapPollRow row] else []
          outcome := .response 200 (.view (mapPollRow row)) }

/-- The database after a sequence of vote calls. -/
def runVotes (app : App) (db : Db) : List VoteCall → Db
  | [] => db
  | call :: rest => runVotes app (postVote app db call).db rest

/-- The number of vote rows of a user on a poll. -/
def votesOf (db : Db) (userId pollId : Nat) : Nat :=
  (db.votes.filter (fun v => v.user_id == userId && v.poll_id == pollId)).length

/-- The option stored for a user on a poll, if any (the first such row). -/
def storedOption (db : Db) (userId pollId : Nat) : Option String :=
  (db.votes.find? (fun v => v.user_id == userId && v.poll_id == pollId)).map (fun v => v.option)

/-- Whether a poll with this id exists. -/
def pollExists (db : Db) (pollId : Nat) : Bool :=
  db.polls.any (fun p => p.id == pollId)

/-! ## Authentication (`src/backend/middleware/auth.js`) -/

/-- A row of `users`, with the columns `requireAuth` selects. -/
structure UserRow where
  id : Nat
  email : String
  role : String
  banned : Bool
  deriving DecidableEq, Repr

/-- The object `requireAuth` stores in `req.user`. -/
structure AuthUser where
  id : Nat
  email : String
  role : String
  deriving DecidableEq, Repr

/-- How `requireAuth` ends: it answers the request itself, or it sets `req.user`
and calls `next()`. -/
inductive AuthResult where
  | respond (status : Nat) (msg : String)
  | next (user : AuthUser)
  deriving DecidableEq, Repr

/-- The expression `header.startsWith("Bearer ") ? header.slice(7) : null` with
`header = req.headers.authorization || ""`.  The seven characters of the prefix
are ASCII, so the prefix test and the slice agree on characters and on UTF-16
units. -/
def bearerToken (authorization : Option String) : Option String :=
  let header := authorization.getD ""
  if "Bearer ".toList.isPrefixOf header.toList then some (String.mk (header.toList.drop 7))
  else none

/-- The query `SELECT id, email, role, banned FROM users WHERE id = $1`; the
parameter is `payload.id`, `none` when the payload has no id. -/
def userByIdQuery (users : List UserRow) (payloadId : Option Nat) : List UserRow :=
  users.filter (fun u => payloadId == some u.id)

/-- The middleware `requireAuth` (lines 4-30).  `verify` is `jwt.verify` with the
secret of the process: `none` when it throws, otherwise the `id` of the payload
(`none` when the payload has none).  `lookupFails` tells whether the users query
throws; the `catch` answers both failures alike. -/
def requireAuth (verify : String → Option (Option Nat)) (users : List UserRow)
    (authorization : Option String) (lookupFails : Bool) : AuthResult :=
  match bearerToken authorization with
  | none => .respond 401 "Missing auth token."
  | some token =>
    if token = "" then .respond 401 "Missing auth token."
    else
      match verify token with
      | none => .respond 401 "Invalid auth token."
      | some payloadId =>
        if lookupFails then .respond 401 "Invalid auth token."
        else
          match userByIdQuery users payloadId with
          | [] => .respond 401 "Invalid auth token."
          | user :: _ =>
            if user.banned then .respond 403 "User is banned."
            else .next { id := user.id, email := user.email, role := user.role }

/-- A request to `POST /:pollId/vote` as it reaches the router: the
`Authorization` header, `req.params.pollId`, `req.body.option`, and whether the
users query and the vote transaction fail during this request. -/
structure VoteRequest where
  authorization : Option String
  pollId : Nat
  option : JsValue
  lookupFails : Bool
  storageFails : Bool
  deriving DecidableEq, Repr

/-- The route `router.post("/:pollId/vote", requireAuth, handler)` (line 177):
the handler runs only when `requireAuth` calls `next()`. -/
def voteRoute (verify : String → Option (Option Nat)) (users : List UserRow) (app : App)
    (db : Db) (req : VoteRequest) : HandlerResult :=
  match requireAuth verify users req.authorization req.lookupFails with
  | .respond status msg => { db := db, emitted := [], outcome := .response status (.error msg) }
  | .next user =>
    postVote app db
      { userId := user.id, pollId := req.pollId, option := req.option
        storageFails := req.storageFails }

/-- A statement the vote handler sends to the store. -/
inductive StoreOp where
  | insertVote (userId pollId : Nat) (option : String)
  | recompute (pollId : Nat)
  deriving DecidableEq, Repr

/-- The statements the handler of `POST /:pollId/vote` sends to the store, in
order: none before the option is validated, the insert inside the transaction,
and the recompute query only after the transaction returned (the `catch` of
lines 196-198 returns before it). -/
def postVoteStoreOps (app : App) (db : Db) (call : VoteCall) : List StoreOp :=
  match includesAB call.option with
  | none => []
  | some option =>
    match withTransaction call.storageFails db
        (fun d => insertVote app d call.userId call.pollId option) with
    | .error _ => [.insertVote call.userId call.pollId option]
    | .ok _ => [.insertVote call.userId call.pollId option, .recompute call.pollId]

/-- The rows a vote call appends to `votes`: one row when the option is valid,
the store works, the pair has no vote and the foreign key, if declared, finds
the poll; none otherwise. -/
def insertedRows (app : App) (db : Db) (call : VoteCall) : List VoteRow :=
  match includesAB call.option with
  | none => []
  | some option =>
    if call.storageFails then []
    else if db.votes.any (fun v => v.user_id == call.userId && v.poll_id == call.pollId) then []
    else if app.votesPollFk && !(db.polls.any (fun p => p.id == call.pollId)) then []
    else [{ user_id := call.userId, poll_id := call.pollId, option := option }]

/-- The database after two vote calls, `first` and then `second`. -/
def voteTwice (app : App) (db : Db) (first second : VoteCall) : Db :=
  (postVote app (postVote app db first).db second).db

/-- The ledger as the storage layer keeps it: one vote per user and poll at
most, and every option A or B. -/
def LedgerOk (db : Db) : Prop :=
  (∀ u p, votesOf db u p ≤ 1) ∧ ∀ v ∈ db.votes, v.option = "A" ∨ v.option = "B"

/-! ## The read routes -/

/-- A row of the comments query of `GET /:pollId` (lines 113-122). -/
structure CommentView where
  id : Nat
  body : String
  created_at : Nat
  email : String
  deriving DecidableEq, Repr

/-- A response body of `GET /:pollId`. -/
inductive DetailBody where
  | error (msg : String)
  | detail (poll : PollView) (comments : List CommentView)
  deriving DecidableEq, Repr

/-- A response of `GET /:pollId`. -/
structure DetailResponse where
  status : Nat
  body : DetailBody
  deriving DecidableEq, Repr

/-- The handler of `GET /:pollId` (lines 89-125).  `viewer` is the header
`x-user-id` as `userId || null`; `comments` is the result of the comments
query, which the voting core does not touch. -/
def getPollById (db : Db) (viewer : Option Nat) (pollId : Nat) (comments : List CommentView) :
    DetailResponse :=
  match pollByIdQuery db viewer pollId with
  | [] => { status := 404, body := .error "Poll not found." }
  | row :: _ => { status := 200, body := .detail (mapPollRow row) comments }

/-- The filter `polls.status = 'approved' AND (polls.ends_at IS NULL OR
polls.ends_at > NOW())` of the feed. -/
def isActive (now : Nat) (p : PollRow) : Bool :=
  p.status == "approved" &&
    (match p.ends_at with
     | none => true
     | some t => decide (now < t))

/-- The order `ORDER BY polls.created_at DESC`: `p` may stand before `q`. -/
def newerFirst (p q : PollRow) : Prop := q.created_at ≤ p.created_at

instance newerFirstDecidable : DecidableRel newerFirst :=
  fun p q => Nat.decLe q.created_at p.created_at

/-- The query of `GET /` (lines 68-84): the active polls, newest first, each
with its aggregates. -/
def feedQuery (db : Db) (viewer : Option Nat) (now : Nat) : List AggRow :=
  ((db.polls.filter (isActive now)).insertionSort newerFirst).map (fun p =>
    aggregateRow db p (maxUserVote viewer (joinedVotes db p)))

/-- The handler of `GET /` (lines 66-87): `result.rows.map(mapPollRow)`. -/
def getPolls (db : Db) (viewer : Option Nat) (now : Nat) : List PollView :=
  (feedQuery db viewer now).map mapPollRow

/-- The `userVote` a read reports according to the specification: the option of
the viewer's vote on the poll when there is one, `null` otherwise. -/
def specUserVote (db : Db) (viewer : Option Nat) (pollId : Nat) : JsValue :=
  match viewer with
  | none => .null
  | some v =>
    match storedOption db v pollId with
    | none => .null
    | some o => .string o

/-! ## Poll creation -/

/-- The constant `MAX_DATA_URL_LENGTH` (line 7). -/
def MAX_DATA_URL_LENGTH : Nat := 1500000

/-- JavaScript `!value`. -/
def isFalsy : JsValue → Bool
  | .undefined => true
  | .null => true
  | .bool b => !b
  | .number n => n == 0
  | .string s => s == ""
  | .object => false

/-- The characters `String.prototype.trim` removes: the white space and line
terminator code points of ECMAScript. -/
def isJsWhiteSpace (c : Char) : Bool :=
  [0x09, 0x0A, 0x0B, 0x0C, 0x0D, 0x20, 0xA0, 0x1680, 0x2028, 0x2029, 0x202F, 0x205F,
    0x3000, 0xFEFF].contains c.toNat || (0x2000 ≤ c.toNat && c.toNat ≤ 0x200A)

/-- JavaScript `value.trim()`. -/
def jsTrim (s : String) : String :=
  String.mk ((s.toList.dropWhile isJsWhiteSpace).reverse.dropWhile isJsWhiteSpace).reverse

/-- JavaScript `s.length`: the number of UTF-16 code units. -/
def jsLength (s : String) : Nat :=
  (s.toList.map (fun c => if c.toNat < 0x10000 then 1 else 2)).sum

/-- JavaScript `s.includes(part)`. -/
def jsIncludes (s part : String) : Bool :=
  decide (part.toList <:+: s.toList)

/-- The function `normalizeImageUrl` (lines 9-35): the normalised reference,
`none` for `null`, or the message of the error it throws.  `urlProtocol` is
`new URL(trimmed).protocol`, `none` when the constructor throws. -/
def normalizeImageUrl (urlProtocol : String → Option String) (value : JsValue) :
    Except String (Option String) :=
  if isFalsy value then .ok none
  else
    match value with
    | .string s =>
      let trimmed := jsTrim s
      if trimmed = "" then .ok none
      else if "data:image/".toList.isPrefixOf trimmed.toList then
        if MAX_DATA_URL_LENGTH < jsLength trimmed then .error "Image data is too large."
        else .ok (some trimmed)
      else
        match urlProtocol trimmed with
        | none => .error "Invalid image URL."
        | some protocol =>
          if protocol = "http:" ∨ protocol = "https:" then .ok (some trimmed)
          else .error "Invalid image URL."
    | _ => .error "Invalid image URL."

/-- The fields `POST /` reads from `req.body` (lines 128-136). -/
structure CreatePollBody where
  question : JsValue
  type : JsValue
  optionAText : JsValue
  optionBText : JsValue
  optionAImageUrl : JsValue
  optionBImageUrl : JsValue
  endsAt : JsValue
  deriving DecidableEq, Repr

/-- The parameters of the `INSERT INTO polls` statement (lines 161-171). -/
structure PollParams where
  question : JsValue
  type : JsValue
  option_a_text : JsValue
  option_b_text : JsValue
  option_a_image_url : Option String
  option_b_image_url : Option String
  status : String
  created_by : Nat
  ends_at : JsValue
  deriving DecidableEq, Repr

/-- JavaScript `value || null`. -/
def orNull (v : JsValue) : JsValue := if isFalsy v then .null else v

/-- How `POST /` ends: an error response, the response `{ id, status }`, or an
exception that leaves the handler. -/
inductive CreateOutcome where
  | error (status : Nat) (msg : String)
  | created (status : Nat) (id : Nat) (pollStatus : String)
  | uncaught (msg : String)
  deriving DecidableEq, Repr

/-- The effect of one call of `POST /`. -/
structure CreateResult where
  db : Db
  outcome : CreateOutcome
  deriving DecidableEq, Repr

/-- The status of the `catch` of lines 147-151. -/
def imageErrorStatus (message : String) : Nat :=
  if jsIncludes message "too large" then 413 else 400

/-- The handler of `POST /` after `requireAuth` (lines 127-175).  `insertPoll` is
the `INSERT ... RETURNING id` on the schema, which is not among the sources: the
row the store keeps for the parameters, or `none` when it refuses them and the
query throws. -/
def createPoll (urlProtocol : String → Option String)
    (insertPoll : PollParams → Option PollRow) (db : Db) (userId : Nat)
    (body : CreatePollBody) : CreateResult :=
  if isFalsy body.question || isFalsy body.type then
    { db := db, outcome := .error 400 "Question and type are required." }
  else
    match normalizeImageUrl urlProtocol body.optionAImageUrl with
    | .error e =>
      let message := if e = "" then "Invalid image URL." else e
      { db := db, outcome := .error (imageErrorStatus message) message }
    | .ok normalizedA =>
      match normalizeImageUrl urlProtocol body.optionBImageUrl with
      | .error e =>
        let message := if e = "" then "Invalid image URL." else e
        { db := db, outcome := .error (imageErrorStatus message) message }
      | .ok normalizedB =>
        match insertPoll
            { question := body.question
              type := body.type
              option_a_text := orNull body.optionAText
              option_b_text := orNull body.optionBText
              option_a_image_url := normalizedA
              option_b_image_url := normalizedB
              status := "approved"
              created_by := userId
              ends_at := orNull body.endsAt } with
        | none => { db := db, outcome := .uncaught "query failed" }
        | some row =>
          { db := { db with polls := db.polls ++ [row] }
            outcome := .created 201 row.id "approved" }

/-! ## Concrete data -/

/-- A text poll "Cats or dogs?" with id 1. -/
def catsDogs : PollRow :=
  { id := 1, question := "Cats or dogs?", type := "text-text"
    option_a_text := some "Cats", option_b_text := some "Dogs"
    option_a_image_url := none, option_b_image_url := none
    status := "approved", created_by := 1, ends_at := none, created_at := 0 }

/-- An application with a socket server and the foreign key declared. -/
def appFk : App := { broadcaster := true, votesPollFk := true }

/-- An application with a socket server and no foreign key. -/
def appNoFk : App := { broadcaster := true, votesPollFk := false }

/-- A vote of user `u` on poll `p` for the option string `o`, the store working. -/
def voteCall (u p : Nat) (o : String) : VoteCall :=
  { userId := u, pollId := p, option := .string o, storageFails := false }

/-- An aggregate row of `catsDogs` with the given counts. -/
def countsRow (a b t : Nat) : AggRow :=
  { poll := catsDogs, votes_a := a, votes_b := b, total_votes := t, user_vote := .undefined }

/-- Whether an option of a request is meaningful in the sense of the
specification: a non-empty text or a non-empty image reference. -/
def optionMeaningful (text image : JsValue) : Bool :=
  !(isFalsy text) || !(isFalsy image)

/-- The text of a parameter that is a string. -/
def textOf : JsValue → Option String
  | .string s => some s
  | _ => none

/-- A store without constraints on the option columns: it keeps the string
parameters as they are, with the given id and creation time. -/
def openStore (id now : Nat) (p : PollParams) : Option PollRow :=
  some
    { id := id
      question := (textOf p.question).getD ""
      type := (textOf p.type).getD ""
      option_a_text := textOf p.option_a_text
      option_b_text := textOf p.option_b_text
      option_a_image_url := p.option_a_image_url
      option_b_image_url := p.option_b_image_url
      status := p.status
      created_by := p.created_by
      ends_at := none
      created_at := now }

/-- A request with a question and a type and nothing else: the form of the
client as it is sent with both options left empty. -/
def emptyOptionsBody : CreatePollBody :=
  { question := .string "Which one?", type := .string "text-text"
    optionAText := .string "", optionBText := .string ""
    optionAImageUrl := .string "", optionBImageUrl := .string ""
    endsAt := .null }

/-- A URL parser that rejects everything; the examples hold no URL. -/
def noUrl : String → Option String := fun _ => none

/-- Two users: 1 is a regular user, 2 is banned. -/
def sampleUsers : List UserRow :=
  [{ id := 1, email := "u1@example.org", role := "user", banned := false },
   { id := 2, email := "u2@example.org", role := "user", banned := true }]

/-- A verifier that accepts the tokens "t1", "t2" and "t9" as those of the users
1, 2 and 9. -/
def sampleVerify (token : String) : Option (Option Nat) :=
  if token = "t1" then some (some 1)
  else if token = "t2" then some (some 2)
  else if token = "t9" then some (some 9)
  else none

/-! ## The client (`src/frontend/app.js`) -/

/-- The filter of `refreshPolls` (lines 42-48) with the set `seen`: a poll is kept
when its id was not seen before. -/
def dedupSeen : List Nat → List PollView → List PollView
  | _, [] => []
  | seen, poll :: rest =>
    if seen.contains poll.id then dedupSeen seen rest
    else poll :: dedupSeen (poll.id :: seen) rest

/-- The list `refreshPolls` stores in `store.polls` for the polls the feed
returned (lines 40-48). -/
def refreshPolls (polls : List PollView) : List PollView := dedupSeen [] polls

/-- The handler of the socket event `poll:update` (lines 888-893): the new value of
`store.polls`. -/
def pollUpdate (polls : List PollView) (updated : PollView) : List PollView :=
  if polls.any (fun poll => poll.id == updated.id) then
    polls.map (fun poll => if poll.id == updated.id then updated else poll)
  else updated :: polls

/-- A view of `catsDogs` with the given id and counts, as the client holds it. -/
def viewOf (id a b : Nat) : PollView :=
  mapPollRow { poll := { catsDogs with id := id }, votes_a := a, votes_b := b,
               total_votes := a + b, user_vote := .null }

/-- A poll like `catsDogs` with the given id, status and expiry. -/
def pollWith (id : Nat) (status : String) (endsAt : Option Nat) : PollRow :=
  { catsDogs with id := id, status := status, ends_at := endsAt }

/-! ## The vote route: effect on the tables -/

theorem includesAB_eq_some {x : JsValue} {o : String} (h : includesAB x = some o) :
    x = .string o ∧ (o = "A" ∨ o = "B") := by
  cases x <;> simp [includesAB] at h
  obtain ⟨h1, h2⟩ := h
  subst h2
  exact ⟨rfl, h1⟩

theorem includesAB_string {o : String} (h : o = "A" ∨ o = "B") :
    includesAB (.string o) = some o := by
  simp [includesAB, h]

/-- The tables after a call: those the transaction leaves, or the old ones. -/
theorem postVote_db (app : App) (db : Db) (call : VoteCall) :
    (postVote app db call).db =
      match includesAB call.option with
      | none => db
      | some o =>
        match withTransaction call.storageFails db
            (fun d => insertVote app d call.userId call.pollId o) with
        | .error _ => db
        | .ok db1 => db1 := by
  unfold postVote
  cases includesAB call.option with
  | none => rfl
  | some o =>
    simp only
    cases withTransaction call.storageFails db
        (fun d => insertVote app d call.userId call.pollId o) with
    | error e => rfl
    | ok db1 =>
      simp only
      cases (voteResultsQuery db1 call.pollId).head? <;> rfl

theorem votesOf_eq_zero_iff (db : Db) (u p : Nat) :
    votesOf db u p = 0 ↔ db.votes.any (fun v => v.user_id == u && v.poll_id == p) = false := by
  simp [votesOf, List.filter_eq_nil_iff]

/-- What the transaction returns. -/
theorem withTransaction_insertVote (app : App) (db : Db) (call : VoteCall) (o : String) :
    withTransaction call.storageFails db (fun d => insertVote app d call.userId call.pollId o)
      = .ok db ∨
    (∃ e, withTransaction call.storageFails db
      (fun d => insertVote app d call.userId call.pollId o) = .error e) ∨
    (votesOf db call.userId call.pollId = 0 ∧ call.storageFails = false ∧
      (app.votesPollFk = true → pollExists db call.pollId = true) ∧
      withTransaction call.storageFails db
        (fun d => insertVote app d call.userId call.pollId o) =
        .ok { db with votes := db.votes ++
          [{ user_id := call.userId, poll_id := call.pollId, option := o }] }) := by
  unfold withTransaction insertVote
  by_cases hf : call.storageFails = true
  · right; left; exact ⟨"storage unavailable", by simp [hf]⟩
  · by_cases hc : db.votes.any (fun v => v.user_id == call.userId && v.poll_id == call.pollId) = true
    · left; simp [hf, hc]
    · by_cases hk : (app.votesPollFk && !(db.polls.any (fun p => p.id == call.pollId))) = true
      · right; left; exact ⟨"foreign key violation", by simp only [hf, hc, hk]; rfl⟩
      · right; right
        refine ⟨?_, by simpa using hf, ?_, ?_⟩
        · rw [votesOf_eq_zero_iff]; simpa using hc
        · intro h; simp [h] at hk; simpa [pollExists] using hk
        · simp only [hf, hc, hk]; rfl

/-- The transaction when the pair already has a vote: nothing is written. -/
theorem withTransaction_conflict (app : App) (db : Db) (call : VoteCall) (o : String)
    (hok : call.storageFails = false) (hv : 0 < votesOf db call.userId call.pollId) :
    withTransaction call.storageFails db (fun d => insertVote app d call.userId call.pollId o)
      = .ok db := by
  have hc : db.votes.any (fun v => v.user_id == call.userId && v.poll_id == call.pollId) = true := by
    by_contra h
    have := (votesOf_eq_zero_iff db call.userId call.pollId).2 (by simpa using h)
    omega
  simp [withTransaction, insertVote, hok, hc]

/-- The transaction when the pair has no vote and the poll exists: one row is
appended. -/
theorem withTransaction_fresh (app : App) (db : Db) (call : VoteCall) (o : String)
    (hok : call.storageFails = false) (hv : votesOf db call.userId call.pollId = 0)
    (hp : pollExists db call.pollId = true) :
    withTransaction call.storageFails db (fun d => insertVote app d call.userId call.pollId o)
      = .ok { db with votes := db.votes ++
          [{ user_id := call.userId, poll_id := call.pollId, option := o }] } := by
  have hc := (votesOf_eq_zero_iff db call.userId call.pollId).1 hv
  have hp2 : db.polls.any (fun p => p.id == call.pollId) = true := hp
  simp only [withTransaction, insertVote, hok, hc, hp2]
  simp

theorem postVote_polls (app : App) (db : Db) (call : VoteCall) :
    (postVote app db call).db.polls = db.polls := by
  rw [postVote_db]
  cases hi : includesAB call.option with
  | none => rfl
  | some o =>
    simp only
    rcases withTransaction_insertVote app db call o with h | ⟨e, h⟩ | ⟨-, -, -, h⟩ <;> rw [h]

theorem postVote_votes (app : App) (db : Db) (call : VoteCall) :
    (postVote app db call).db = db ∨
    ∃ o, (o = "A" ∨ o = "B") ∧ call.option = .string o ∧
      votesOf db call.userId call.pollId = 0 ∧
      (postVote app db call).db = { db with votes := db.votes ++
        [{ user_id := call.userId, poll_id := call.pollId, option := o }] } := by
  rw [postVote_db]
  cases hi : includesAB call.option with
  | none => left; rfl
  | some o =>
    simp only
    obtain ⟨ho1, ho2⟩ := includesAB_eq_some hi
    rcases withTransaction_insertVote app db call o with h | ⟨e, h⟩ | ⟨h0, -, -, h⟩
    · left; rw [h]
    · left; rw [h]
    · right; exact ⟨o, ho2, ho1, h0, by rw [h]⟩

/-! ## One vote per user and poll -/

theorem votesOf_append (db : Db) (w : VoteRow) (u p : Nat) :
    votesOf { db with votes := db.votes ++ [w] } u p =
      votesOf db u p + (if w.user_id = u ∧ w.poll_id = p then 1 else 0) := by
  simp only [votesOf, List.filter_append, List.length_append]
  by_cases h : w.user_id = u ∧ w.poll_id = p
  · simp [List.filter_cons, h]
  · have h2 : (w.user_id == u && w.poll_id == p) = false := by
      simpa using h
    simp [List.filter_cons, h, h2]

/-- A call never lowers the number of votes of a pair. -/
theorem postVote_votesOf_mono (app : App) (db : Db) (call : VoteCall) (u p : Nat) :
    votesOf db u p ≤ votesOf (postVote app db call).db u p := by
  rcases postVote_votes app db call with h | ⟨o, -, -, -, h⟩
  · rw [h]
  · rw [h, votesOf_append]; omega

/-- A call keeps every pair at one vote at most. -/
theorem postVote_votesOf_le_one (app : App) (db : Db) (call : VoteCall)
    (hdb : ∀ u p, votesOf db u p ≤ 1) (u p : Nat) :
    votesOf (postVote app db call).db u p ≤ 1 := by
  rcases postVote_votes app db call with h | ⟨o, -, -, h0, h⟩
  · rw [h]; exact hdb u p
  · rw [h, votesOf_append]
    by_cases hk : call.userId = u ∧ call.pollId = p
    · obtain ⟨rfl, rfl⟩ := hk
      simp [h0]
    · simp only [hk, if_false]
      exact hdb u p

/-- After an accepted call on an existing poll the caller has a vote on it. -/
theorem postVote_votesOf_pos (app : App) (db : Db) (call : VoteCall)
    (hopt : call.option = .string "A" ∨ call.option = .string "B")
    (hok : call.storageFails = false) (hp : pollExists db call.pollId = true) :
    1 ≤ votesOf (postVote app db call).db call.userId call.pollId := by
  have hi : ∃ o, includesAB call.option = some o := by
    rcases hopt with h | h <;> rw [h] <;> exact ⟨_, includesAB_string (by simp)⟩
  obtain ⟨o, hi⟩ := hi
  rw [postVote_db, hi]
  simp only
  rcases Nat.eq_zero_or_pos (votesOf db call.userId call.pollId) with h0 | h0
  · rw [withTransaction_fresh app db call o hok h0 hp]
    simp only
    rw [votesOf_append]; simp
  · rw [withTransaction_conflict app db call o hok h0]
    exact h0

theorem runVotes_polls (app : App) (calls : List VoteCall) (db : Db) :
    (runVotes app db calls).polls = db.polls := by
  induction calls generalizing db with
  | nil => rfl
  | cons c rest ih => rw [runVotes, ih, postVote_polls]

theorem runVotes_votesOf_mono (app : App) (calls : List VoteCall) (db : Db) (u p : Nat) :
    votesOf db u p ≤ votesOf (runVotes app db calls) u p := by
  induction calls generalizing db with
  | nil => exact le_refl _
  | cons c rest ih => exact le_trans (postVote_votesOf_mono app db c u p) (ih _)

theorem runVotes_votesOf_le_one (app : App) (calls : List VoteCall) (db : Db)
    (hdb : ∀ u p, votesOf db u p ≤ 1) (u p : Nat) :
    votesOf (runVotes app db calls) u p ≤ 1 := by
  induction calls generalizing db with
  | nil => exact hdb u p
  | cons c rest ih => exact ih _ (postVote_votesOf_le_one app db c hdb)

theorem runVotes_votesOf_pos (app : App) (calls : List VoteCall) (db : Db) (c : VoteCall)
    (hc : c ∈ calls) (hopt : c.option = .string "A" ∨ c.option = .string "B")
    (hok : c.storageFails = false) (hp : pollExists db c.pollId = true) :
    1 ≤ votesOf (runVotes app db calls) c.userId c.pollId := by
  induction calls generalizing db with
  | nil => cases hc
  | cons d rest ih =>
    rw [runVotes]
    rcases List.mem_cons.1 hc with rfl | hmem
    · exact le_trans (postVote_votesOf_pos app db c hopt hok hp) (runVotes_votesOf_mono _ _ _ _ _)
    · refine ih _ hmem ?_
      simpa [pollExists, postVote_polls] using hp

/-- C1. In every ledger reached from the empty one by a sequence of vote calls
no user has more than one vote on a poll; and when the sequence holds a call of
user `u` on an existing poll `p` that is accepted (option A or B, the store
working), exactly one vote of `u` on `p` is stored, however many calls hit `p`. -/
theorem vote_ledger_one_vote_per_user_poll (app : App) (polls : List PollRow)
    (calls : List VoteCall) :
    (∀ u p, votesOf (runVotes app ⟨polls, []⟩ calls) u p ≤ 1) ∧
    (∀ c ∈ calls, (c.option = .string "A" ∨ c.option = .string "B") →
      c.storageFails = false → pollExists ⟨polls, []⟩ c.pollId = true →
      votesOf (runVotes app ⟨polls, []⟩ calls) c.userId c.pollId = 1) := by
  have h1 : ∀ u p, votesOf (runVotes app ⟨polls, []⟩ calls) u p ≤ 1 :=
    runVotes_votesOf_le_one app calls _ (fun u p => by simp [votesOf])
  refine ⟨h1, fun c hc hopt hok hp => ?_⟩
  exact le_antisymm (h1 _ _) (runVotes_votesOf_pos app calls _ c hc hopt hok hp)

/-- Three calls of user 1 on poll 1 (A, then B, then A) and one of user 2 leave
one vote of user 1. -/
theorem vote_ledger_one_vote_per_user_poll_witness :
    votesOf (runVotes appFk ⟨[catsDogs], []⟩
      [voteCall 1 1 "A", voteCall 1 1 "B", voteCall 2 1 "B", voteCall 1 1 "A"]) 1 1 = 1 :=
  (vote_ledger_one_vote_per_user_poll appFk [catsDogs]
    [voteCall 1 1 "A", voteCall 1 1 "B", voteCall 2 1 "B", voteCall 1 1 "A"]).2
    (voteCall 1 1 "B") (by decide) (by decide) rfl (by decide)

/-! ## The vote route: response -/

/-- The handler when the option is valid, the transaction commits and the
recompute query finds the poll. -/
theorem postVote_ok (app : App) (db db1 : Db) (call : VoteCall) (o : String) (row : AggRow)
    (hi : includesAB call.option = some o)
    (ht : withTransaction call.storageFails db
      (fun d => insertVote app d call.userId call.pollId o) = .ok db1)
    (hr : (voteResultsQuery db1 call.pollId).head? = some row) :
    postVote app db call =
      { db := db1
        emitted := if app.broadcaster then [mapPollRow row] else []
        outcome := .response 200 (.view (mapPollRow row)) } := by
  unfold postVote
  rw [hi]
  simp only
  rw [ht]
  simp only
  rw [hr]

/-- The first row of the recompute query is the aggregate of the first poll
with the requested id. -/
theorem voteResultsQuery_head (db : Db) (pollId : Nat) :
    (voteResultsQuery db pollId).head? =
      (db.polls.find? (fun p => p.id == pollId)).map (fun p =>
        aggregateRow db p .undefined) := by
  unfold voteResultsQuery
  rw [List.head?_map, List.filter_head?]

theorem voteResultsQuery_head_of_exists (db : Db) (pollId : Nat)
    (hp : pollExists db pollId = true) :
    ∃ row, (voteResultsQuery db pollId).head? = some row := by
  rw [voteResultsQuery_head]
  have : ∃ p, db.polls.find? (fun p => p.id == pollId) = some p := by
    rw [← Option.isSome_iff_exists, List.find?_isSome]
    simpa [pollExists] using hp
  obtain ⟨p, hp⟩ := this
  exact ⟨_, by rw [hp]; rfl⟩

/-- C2. When the ledger holds a vote of the caller on the poll, a call with
option A or B leaves the database as it was, so the stored option stays and no
row is added; and when the store works and the poll exists, the call answers
200 with the poll view, not an error. -/
theorem revote_leaves_ledger_unchanged (app : App) (db : Db) (call : VoteCall)
    (hv : 0 < votesOf db call.userId call.pollId)
    (hopt : call.option = .string "A" ∨ call.option = .string "B") :
    (postVote app db call).db = db ∧
    (call.storageFails = false → pollExists db call.pollId = true →
      ∃ row, (voteResultsQuery db call.pollId).head? = some row ∧
        (postVote app db call).outcome = .response 200 (.view (mapPollRow row))) := by
  constructor
  · rcases postVote_votes app db call with h | ⟨o, -, -, h0, -⟩
    · exact h
    · omega
  · intro hok hp
    obtain ⟨row, hr⟩ := voteResultsQuery_head_of_exists db call.pollId hp
    have hi : ∃ o, includesAB call.option = some o := by
      rcases hopt with h | h <;> rw [h] <;> exact ⟨_, includesAB_string (by simp)⟩
    obtain ⟨o, hi⟩ := hi
    refine ⟨row, hr, ?_⟩
    rw [postVote_ok app db db call o row hi (withTransaction_conflict app db call o hok hv) hr]

/-- User 1 voted A on poll 1; the call for B changes nothing and answers 200. -/
theorem revote_leaves_ledger_unchanged_witness :
    (postVote appFk ⟨[catsDogs], [⟨1, 1, "A"⟩]⟩ (voteCall 1 1 "B")).db
      = ⟨[catsDogs], [⟨1, 1, "A"⟩]⟩ ∧
    ∃ row, (voteResultsQuery ⟨[catsDogs], [⟨1, 1, "A"⟩]⟩ 1).head? = some row ∧
      (postVote appFk ⟨[catsDogs], [⟨1, 1, "A"⟩]⟩ (voteCall 1 1 "B")).outcome
        = .response 200 (.view (mapPollRow row)) :=
  have h := revote_leaves_ledger_unchanged appFk ⟨[catsDogs], [⟨1, 1, "A"⟩]⟩ (voteCall 1 1 "B")
    (by decide) (by decide)
  ⟨h.1, h.2 rfl (by decide)⟩

/-- Every poll view the vote route sends has `userVote` undefined: the
recompute query selects no `user_vote` column. -/
theorem postVote_view_userVote (app : App) (db : Db) (call : VoteCall) (status : Nat)
    (v : PollView) (h : (postVote app db call).outcome = .response status (.view v)) :
    v.userVote = .undefined := by
  unfold postVote at h
  split at h
  · simp at h
  · split at h
    · simp at h
    · split at h
      · simp at h
      · rename_i row hrow
        simp only [Outcome.response.injEq, Body.view.injEq] at h
        rw [← h.2]
        have := voteResultsQuery_head _ call.pollId ▸ hrow
        cases hf : List.find? (fun (p : PollRow) => p.id == call.pollId) _ with
        | none => rw [hf] at this; simp at this
        | some p =>
          rw [hf] at this
          simp only [Option.map_some', Option.some.injEq] at this
          rw [← this]; rfl

/-- C3, at the first step of the scenario of the specification: on the fresh
poll 1, user 1 votes A.  The call answers 200, the ledger stores A for the
user, and the view in the response has `userVote` undefined, not "A". -/
theorem vote_response_userVote_undefined :
    ∃ v, (postVote appFk ⟨[catsDogs], []⟩ (voteCall 1 1 "A")).outcome
        = .response 200 (.view v) ∧
      v.userVote = .undefined ∧
      storedOption (postVote appFk ⟨[catsDogs], []⟩ (voteCall 1 1 "A")).db 1 1 = some "A" ∧
      v.votes = ⟨1, 0⟩ ∧ v.percents = ⟨100, 0⟩ :=
  ⟨_, rfl, rfl, by decide, by decide, by decide⟩

/-- C9. A call whose option is neither the string "A" nor the string "B" is
answered 400 with the validation message; the database is the one before and no
event is emitted. -/
theorem invalid_option_rejected (app : App) (db : Db) (call : VoteCall)
    (h : call.option ≠ .string "A" ∧ call.option ≠ .string "B") :
    postVote app db call =
      { db := db, emitted := [],
        outcome := .response 400 (.error "Option must be \x27A\x27 or \x27B\x27.") } := by
  have hi : includesAB call.option = none := by
    cases hx : includesAB call.option with
    | none => rfl
    | some o =>
      obtain ⟨h1, h2⟩ := includesAB_eq_some hx
      rcases h2 with rfl | rfl
      · exact absurd h1 h.1
      · exact absurd h1 h.2
  unfold postVote
  rw [hi]

/-- The lowercase option "a" on a ledger with one vote. -/
theorem invalid_option_rejected_witness :
    postVote appFk ⟨[catsDogs], [⟨1, 1, "A"⟩]⟩
        { userId := 2, pollId := 1, option := .string "a", storageFails := false } =
      { db := ⟨[catsDogs], [⟨1, 1, "A"⟩]⟩, emitted := [],
        outcome := .response 400 (.error "Option must be \x27A\x27 or \x27B\x27.") } :=
  invalid_option_rejected appFk ⟨[catsDogs], [⟨1, 1, "A"⟩]⟩
    { userId := 2, pollId := 1, option := .string "a", storageFails := false }
    ⟨by decide, by decide⟩

/-- The vote route never answers 404. -/
theorem postVote_never_404 (app : App) (db : Db) (call : VoteCall) (body : Body) :
    (postVote app db call).outcome ≠ .response 404 body := by
  unfold postVote
  repeat (first | split | simp)

/-- C10, at a vote of user 1 for option A on poll 7 while only poll 1 exists.
With the foreign key the insert is refused and the answer is 500 "Failed to
submit vote."; without it the vote row (1, 7, A) is stored and `mapPollRow`
throws on the missing result row, so no response is sent.  Neither is 404. -/
theorem vote_on_missing_poll :
    (postVote appFk ⟨[catsDogs], []⟩ (voteCall 1 7 "A")).outcome
      = .response 500 (.error "Failed to submit vote.") ∧
    (postVote appNoFk ⟨[catsDogs], []⟩ (voteCall 1 7 "A")).outcome
      = .uncaught "TypeError: Cannot read properties of undefined" ∧
    (postVote appNoFk ⟨[catsDogs], []⟩ (voteCall 1 7 "A")).db.votes = [⟨1, 7, "A"⟩] := by
  decide

/-! ## Read your own write -/

theorem joinedVotes_append (db : Db) (w : VoteRow) (p : PollRow) (h : w.poll_id = p.id) :
    joinedVotes { db with votes := db.votes ++ [w] } p = joinedVotes db p ++ [w] := by
  simp [joinedVotes, List.filter_append, List.filter_cons, h]

theorem sumOption_append (o : String) (vs : List VoteRow) (w : VoteRow) :
    sumOption o (vs ++ [w]) = sumOption o vs + (if w.option = o then 1 else 0) := by
  simp [sumOption]

/-- C4. When the caller has no vote on the existing poll, a call with option A
or B, the store working, answers 200 with the view computed from the ledger
after the insert: the count of the chosen option is the one before plus 1, the
count of the other option is the one before, and `totalVotes` is the one before
plus 1. -/
theorem fresh_vote_counted (app : App) (db : Db) (call : VoteCall) (o : String) (row0 : AggRow)
    (hopt : call.option = .string o) (ho : o = "A" ∨ o = "B")
    (hnew : votesOf db call.userId call.pollId = 0)
    (hok : call.storageFails = false)
    (hrow : (voteResultsQuery db call.pollId).head? = some row0) :
    ∃ row1, (voteResultsQuery (postVote app db call).db call.pollId).head? = some row1 ∧
      (postVote app db call).outcome = .response 200 (.view (mapPollRow row1)) ∧
      (mapPollRow row1).totalVotes = (mapPollRow row0).totalVotes + 1 ∧
      (o = "A" → (mapPollRow row1).votes.a = (mapPollRow row0).votes.a + 1 ∧
        (mapPollRow row1).votes.b = (mapPollRow row0).votes.b) ∧
      (o = "B" → (mapPollRow row1).votes.b = (mapPollRow row0).votes.b + 1 ∧
        (mapPollRow row1).votes.a = (mapPollRow row0).votes.a) := by
  have hi : includesAB call.option = some o := by rw [hopt]; exact includesAB_string ho
  rw [voteResultsQuery_head] at hrow
  cases hf : db.polls.find? (fun p => p.id == call.pollId) with
  | none => rw [hf] at hrow; simp at hrow
  | some p =>
    rw [hf] at hrow
    simp only [Option.map_some', Option.some.injEq] at hrow
    have hpid : p.id = call.pollId := by
      have := List.find?_some hf
      simpa using this
    have hp : pollExists db call.pollId = true := by
      have hmem := List.mem_of_find?_eq_some hf
      simp only [pollExists, List.any_eq_true]
      exact ⟨p, hmem, by simpa using hpid⟩
    have ht := withTransaction_fresh app db call o hok hnew hp
    have hr1 : (voteResultsQuery { db with votes := db.votes ++
        [{ user_id := call.userId, poll_id := call.pollId, option := o }] } call.pollId).head? =
        some { poll := p
               votes_a := sumOption "A" (joinedVotes db p ++ [⟨call.userId, call.pollId, o⟩])
               votes_b := sumOption "B" (joinedVotes db p ++ [⟨call.userId, call.pollId, o⟩])
               total_votes := countVotes (joinedVotes db p ++ [⟨call.userId, call.pollId, o⟩])
               user_vote := .undefined } := by
      rw [voteResultsQuery_head]
      simp only [hf, Option.map_some', aggregateRow]
      rw [joinedVotes_append db _ p hpid.symm]
    rw [postVote_ok app db _ call o _ hi ht hr1]
    refine ⟨_, hr1, rfl, ?_, ?_, ?_⟩
    · rw [← hrow]; simp [mapPollRow, aggregateRow, countVotes]
    · rintro rfl
      rw [← hrow]
      simp [mapPollRow, aggregateRow, sumOption_append]
    · rintro rfl
      rw [← hrow]
      simp [mapPollRow, aggregateRow, sumOption_append]

/-- User 2 votes B on poll 1, where user 1 voted A: B goes from 0 to 1, A stays
1, the total goes from 1 to 2. -/
theorem fresh_vote_counted_witness :
    ∃ row1, (voteResultsQuery (postVote appFk ⟨[catsDogs], [⟨1, 1, "A"⟩]⟩
        (voteCall 2 1 "B")).db 1).head? = some row1 ∧
      (postVote appFk ⟨[catsDogs], [⟨1, 1, "A"⟩]⟩ (voteCall 2 1 "B")).outcome
        = .response 200 (.view (mapPollRow row1)) ∧
      (mapPollRow row1).totalVotes = 1 + 1 ∧
      (mapPollRow row1).votes.b = 0 + 1 ∧ (mapPollRow row1).votes.a = 1 := by
  obtain ⟨row1, h1, h2, h3, -, h5⟩ :=
    fresh_vote_counted appFk ⟨[catsDogs], [⟨1, 1, "A"⟩]⟩ (voteCall 2 1 "B") "B"
      { poll := catsDogs, votes_a := 1, votes_b := 0, total_votes := 1, user_vote := .undefined }
      rfl (Or.inr rfl) (by decide) rfl (by decide)
  exact ⟨row1, h1, h2, h3, h5 rfl⟩

/-! ## Counts -/

/-- A call stores options A and B only. -/
theorem postVote_options (app : App) (db : Db) (call : VoteCall)
    (hdb : ∀ v ∈ db.votes, v.option = "A" ∨ v.option = "B") :
    ∀ v ∈ (postVote app db call).db.votes, v.option = "A" ∨ v.option = "B" := by
  rcases postVote_votes app db call with h | ⟨o, ho, -, -, h⟩
  · rw [h]; exact hdb
  · rw [h]
    intro v hv
    rcases List.mem_append.1 hv with hv | hv
    · exact hdb v hv
    · rw [List.mem_singleton.1 hv]; exact ho

theorem runVotes_options (app : App) (calls : List VoteCall) (db : Db)
    (hdb : ∀ v ∈ db.votes, v.option = "A" ∨ v.option = "B") :
    ∀ v ∈ (runVotes app db calls).votes, v.option = "A" ∨ v.option = "B" := by
  induction calls generalizing db with
  | nil => exact hdb
  | cons c rest ih => exact ih _ (postVote_options app db c hdb)

/-- When every row has option A or B, the row count is the sum of the two
per-option sums. -/
theorem countVotes_eq_sum (vs : List VoteRow)
    (h : ∀ v ∈ vs, v.option = "A" ∨ v.option = "B") :
    countVotes vs = sumOption "A" vs + sumOption "B" vs := by
  induction vs with
  | nil => rfl
  | cons w rest ih =>
    have hr := ih (fun v hv => h v (List.mem_cons_of_mem _ hv))
    simp only [countVotes, List.length_cons] at hr ⊢
    simp only [sumOption, List.map_cons, List.sum_cons] at hr ⊢
    rcases h w (List.mem_cons_self _ _) with hw | hw <;> simp [hw] at hr ⊢ <;> omega

/-- The per-option sums never exceed the row count. -/
theorem sumOption_le_countVotes (o : String) (vs : List VoteRow) :
    sumOption o vs ≤ countVotes vs := by
  induction vs with
  | nil => simp [sumOption, countVotes]
  | cons w rest ih =>
    simp only [countVotes, List.length_cons] at ih ⊢
    simp only [sumOption, List.map_cons, List.sum_cons] at ih ⊢
    split <;> omega

/-- C7. In every ledger reached through the vote route, for every poll, the
view `mapPollRow` builds from the aggregate row of the poll has
`totalVotes = votes.a + votes.b`, whatever the `user_vote` column; this holds
for each row of the single-poll query and of the recompute query of the vote
route. -/
theorem total_votes_is_sum (app : App) (polls : List PollRow) (calls : List VoteCall) :
    (∀ (p : PollRow) (uv : JsValue),
      (mapPollRow (aggregateRow (runVotes app ⟨polls, []⟩ calls) p uv)).totalVotes =
        (mapPollRow (aggregateRow (runVotes app ⟨polls, []⟩ calls) p uv)).votes.a +
        (mapPollRow (aggregateRow (runVotes app ⟨polls, []⟩ calls) p uv)).votes.b) ∧
    (∀ viewer pollId, ∀ row ∈ pollByIdQuery (runVotes app ⟨polls, []⟩ calls) viewer pollId,
      (mapPollRow row).totalVotes = (mapPollRow row).votes.a + (mapPollRow row).votes.b) ∧
    (∀ pollId, ∀ row ∈ voteResultsQuery (runVotes app ⟨polls, []⟩ calls) pollId,
      (mapPollRow row).totalVotes = (mapPollRow row).votes.a + (mapPollRow row).votes.b) := by
  have hopt := runVotes_options app calls ⟨polls, []⟩ (fun v hv => by cases hv)
  have key : ∀ (p : PollRow) (uv : JsValue),
      (mapPollRow (aggregateRow (runVotes app ⟨polls, []⟩ calls) p uv)).totalVotes =
        (mapPollRow (aggregateRow (runVotes app ⟨polls, []⟩ calls) p uv)).votes.a +
        (mapPollRow (aggregateRow (runVotes app ⟨polls, []⟩ calls) p uv)).votes.b := fun p uv =>
    countVotes_eq_sum _ (fun v hv => hopt v (List.mem_of_mem_filter hv))
  refine ⟨key, ?_, ?_⟩
  · intro viewer pollId row hrow
    simp only [pollByIdQuery, List.mem_map] at hrow
    obtain ⟨p, -, rfl⟩ := hrow
    exact key p _
  · intro pollId row hrow
    simp only [voteResultsQuery, List.mem_map] at hrow
    obtain ⟨p, -, rfl⟩ := hrow
    exact key p _

/-! ## Binary64 rounding: error bounds -/

theorem ilog2Aux_spec (fuel : Nat) : ∀ n, n ≤ fuel → 0 < n →
    2 ^ ilog2Aux fuel n ≤ n ∧ n < 2 ^ (ilog2Aux fuel n + 1) := by
  induction fuel with
  | zero => intro n h1 h2; omega
  | succ f ih =>
    intro n h1 h2
    unfold ilog2Aux
    by_cases hn : n < 2
    · simp only [hn, if_true]
      constructor <;> simp <;> omega
    · simp only [hn, if_false]
      obtain ⟨h3, h4⟩ := ih (n / 2) (by omega) (by omega)
      rw [pow_succ, pow_succ]
      constructor <;> omega

theorem ilog2_spec (n : Nat) (h : 0 < n) : 2 ^ ilog2 n ≤ n ∧ n < 2 ^ (ilog2 n + 1) :=
  ilog2Aux_spec n n (le_refl n) h

/-- The rounded quotient is within one half of the quotient. -/
theorem roundDiv_spec (n d : Nat) (hd : 0 < d) :
    2 * (roundDiv n d * d) ≤ 2 * n + d ∧ 2 * n ≤ 2 * (roundDiv n d * d) + d := by
  have h1 := Nat.div_add_mod n d
  have h2 := Nat.mod_lt n hd
  unfold roundDiv
  simp only
  generalize n / d = q at *
  generalize n % d = r at *
  have h3 : d * q = q * d := Nat.mul_comm _ _
  split
  · constructor <;> omega
  · split
    · rw [Nat.add_mul]; constructor <;> omega
    · split
      · constructor <;> omega
      · rw [Nat.add_mul]; constructor <;> omega

theorem two_zpow_toNat (s : ℤ) :
    ((2 : ℚ) ^ s.toNat) / (2 : ℚ) ^ (-s).toNat = (2 : ℚ) ^ s := by
  rcases le_total 0 s with h | h
  · obtain ⟨n, rfl⟩ := Int.eq_ofNat_of_zero_le h
    simp
  · obtain ⟨n, hn⟩ := Int.eq_ofNat_of_zero_le (neg_nonneg.2 h)
    have : s = -(n : ℤ) := by omega
    subst this
    simp [zpow_neg]

/-- Rounding the quotient in units of `2^s` moves it by half a unit at most. -/
theorem roundDiv_scaled (n d : Nat) (hd : 0 < d) (s : ℤ) :
    |(roundDiv (n * 2 ^ (-s).toNat) (d * 2 ^ s.toNat) : ℚ) * (2 : ℚ) ^ s - (n : ℚ) / d|
      ≤ (2 : ℚ) ^ s / 2 := by
  have hD : 0 < d * 2 ^ s.toNat := Nat.mul_pos hd (pow_pos (by norm_num) _)
  obtain ⟨h1, h2⟩ := roundDiv_spec (n * 2 ^ (-s).toNat) (d * 2 ^ s.toNat) hD
  generalize roundDiv (n * 2 ^ (-s).toNat) (d * 2 ^ s.toNat) = m at h1 h2
  have h1q : (2 : ℚ) * (m * (d * 2 ^ s.toNat)) ≤ 2 * (n * 2 ^ (-s).toNat) + d * 2 ^ s.toNat := by
    exact_mod_cast h1
  have h2q : (2 : ℚ) * (n * 2 ^ (-s).toNat) ≤ 2 * (m * (d * 2 ^ s.toNat)) + d * 2 ^ s.toNat := by
    exact_mod_cast h2
  rw [← two_zpow_toNat s]
  generalize (2 : ℚ) ^ s.toNat = P at h1q h2q ⊢
  have hM : (0 : ℚ) < (2 : ℚ) ^ (-s).toNat := by positivity
  generalize (2 : ℚ) ^ (-s).toNat = M at h1q h2q hM ⊢
  have hdq : (0 : ℚ) < d := by exact_mod_cast hd
  have e1 : (m : ℚ) * (P / M) - n / d = (m * (d * P) - n * M) / (d * M) := by
    field_simp
    ring
  have e2 : P / M / 2 = (d * P / 2) / (d * M) := by
    field_simp; ring
  rw [e1, e2, abs_le]
  have hdM : (0 : ℚ) < d * M := mul_pos hdq hM
  constructor
  · rw [← neg_div, div_le_div_iff_of_pos_right hdM]; linarith
  · rw [div_le_div_iff_of_pos_right hdM]; linarith

/-- The exponent `flQ` settles on is not above the quotient. -/
theorem flQ_exponent (n d : Nat) (hn : 0 < n) (hd : 0 < d) :
    (2 : ℚ) ^ (if d * 2 ^ ((ilog2 n : ℤ) - (ilog2 d : ℤ)).toNat ≤
          n * 2 ^ (-((ilog2 n : ℤ) - (ilog2 d : ℤ))).toNat
        then (ilog2 n : ℤ) - (ilog2 d : ℤ) else (ilog2 n : ℤ) - (ilog2 d : ℤ) - 1)
      ≤ (n : ℚ) / d := by
  have hdq : (0 : ℚ) < d := by exact_mod_cast hd
  split
  · rename_i h
    have hq : (d : ℚ) * 2 ^ ((ilog2 n : ℤ) - (ilog2 d : ℤ)).toNat ≤
        n * 2 ^ (-((ilog2 n : ℤ) - (ilog2 d : ℤ))).toNat := by exact_mod_cast h
    rw [← two_zpow_toNat, div_le_div_iff₀ (by positivity) hdq]
    linarith
  · have h1 : (2 : ℚ) ^ ilog2 n ≤ n := by exact_mod_cast (ilog2_spec n hn).1
    have h2 : (d : ℚ) ≤ 2 ^ (ilog2 d + 1) := by exact_mod_cast le_of_lt (ilog2_spec d hd).2
    have e : (2 : ℚ) ^ ((ilog2 n : ℤ) - (ilog2 d : ℤ) - 1) =
        (2 : ℚ) ^ ilog2 n / 2 ^ (ilog2 d + 1) := by
      rw [show (ilog2 n : ℤ) - (ilog2 d : ℤ) - 1 = (ilog2 n : ℤ) - ((ilog2 d + 1 : ℕ) : ℤ) by
        push_cast; ring]
      rw [zpow_sub₀ (by norm_num), zpow_natCast, zpow_natCast]
    rw [e]
    exact div_le_div₀ (by positivity) h1 hdq h2

/-- The relative error of one rounding is `2^-53` at most. -/
theorem flQ_error (n d : Nat) (hd : 0 < d) :
    |(flQ n d).toRat - (n : ℚ) / d| ≤ (n : ℚ) / d * (2 : ℚ) ^ (-53 : ℤ) := by
  rcases Nat.eq_zero_or_pos n with rfl | hn
  · simp [flQ, Double.toRat]
  · unfold flQ
    rw [if_neg (by omega)]
    simp only [Double.toRat]
    have hx := flQ_exponent n d hn hd
    generalize (if d * 2 ^ ((ilog2 n : ℤ) - (ilog2 d : ℤ)).toNat ≤
          n * 2 ^ (-((ilog2 n : ℤ) - (ilog2 d : ℤ))).toNat
        then (ilog2 n : ℤ) - (ilog2 d : ℤ) else (ilog2 n : ℤ) - (ilog2 d : ℤ) - 1) = e0 at hx ⊢
    refine le_trans (roundDiv_scaled n d hd (e0 - 52)) ?_
    have e : (2 : ℚ) ^ (e0 - 52) / 2 = (2 : ℚ) ^ e0 * (2 : ℚ) ^ (-53 : ℤ) := by
      rw [zpow_sub₀ (by norm_num), zpow_neg]
      norm_num
      ring
    rw [e]
    exact mul_le_mul_of_nonneg_right hx (by positivity)

/-! ## Percentages -/

theorem fdiv_Number (v t : Nat) : fdiv (Number v) (Number t) = flQ v t := by
  simp [fdiv, Number]

/-- The product with 100 has relative error `2^-53` at most. -/
theorem fmul_hundred_error (x : Double) :
    |(fmul x (Number 100)).toRat - x.toRat * 100| ≤ x.toRat * 100 * (2 : ℚ) ^ (-53 : ℤ) := by
  have h := flQ_error (x.m * 100 * 2 ^ x.e.toNat) (2 ^ (-x.e).toNat) (pow_pos (by norm_num) _)
  have e : ((x.m * 100 * 2 ^ x.e.toNat : ℕ) : ℚ) / ((2 ^ (-x.e).toNat : ℕ) : ℚ)
      = x.toRat * 100 := by
    rw [Double.toRat, ← two_zpow_toNat x.e]
    push_cast
    ring
  rw [e] at h
  simpa [fmul, Number] using h

/-- The result of `Math.round` is the floor of the value plus one half. -/
theorem mathRound_spec (x : Double) :
    (mathRound x : ℚ) ≤ x.toRat + 1 / 2 ∧ x.toRat + 1 / 2 < (mathRound x : ℚ) + 1 := by
  have hB : 0 < 2 * 2 ^ (-x.e).toNat := Nat.mul_pos (by norm_num) (pow_pos (by norm_num) _)
  have h1 := Nat.mul_div_le (2 * x.m * 2 ^ x.e.toNat + 2 ^ (-x.e).toNat) (2 * 2 ^ (-x.e).toNat)
  have h2 := Nat.lt_mul_div_succ (2 * x.m * 2 ^ x.e.toNat + 2 ^ (-x.e).toNat) hB
  unfold mathRound
  generalize (2 * x.m * 2 ^ x.e.toNat + 2 ^ (-x.e).toNat) / (2 * 2 ^ (-x.e).toNat) = r at h1 h2 ⊢
  have h1q : (2 : ℚ) * 2 ^ (-x.e).toNat * r ≤ 2 * x.m * 2 ^ x.e.toNat + 2 ^ (-x.e).toNat := by
    exact_mod_cast h1
  have h2q : (2 : ℚ) * x.m * 2 ^ x.e.toNat + 2 ^ (-x.e).toNat < 2 * 2 ^ (-x.e).toNat * (r + 1) := by
    exact_mod_cast h2
  rw [Double.toRat, ← two_zpow_toNat x.e]
  generalize (2 : ℚ) ^ x.e.toNat = P at h1q h2q ⊢
  have hM : (0 : ℚ) < (2 : ℚ) ^ (-x.e).toNat := by positivity
  generalize (2 : ℚ) ^ (-x.e).toNat = M at h1q h2q hM ⊢
  have e : (x.m : ℚ) * (P / M) + 1 / 2 = (2 * x.m * P + M) / (2 * M) := by
    field_simp
    ring
  rw [e]
  constructor
  · rw [le_div_iff₀ (by positivity)]; linarith
  · rw [div_lt_iff₀ (by positivity)]; linarith

/-- The number `mapPollRow` rounds is within three thousandths of the exact
percentage, relatively. -/
theorem percent_value_bounds (v t : Nat) (ht : 0 < t) :
    (997 / 10 : ℚ) * ((v : ℚ) / t) ≤
        (fmul (fdiv (Number v) (Number t)) (Number 100)).toRat ∧
      (fmul (fdiv (Number v) (Number t)) (Number 100)).toRat ≤
        (1003 / 10 : ℚ) * ((v : ℚ) / t) := by
  rw [fdiv_Number]
  have h1 := abs_le.1 (flQ_error v t ht)
  have h2 := abs_le.1 (fmul_hundred_error (flQ v t))
  have hq : (0 : ℚ) ≤ (v : ℚ) / t := by positivity
  have hδ : (2 : ℚ) ^ (-53 : ℤ) ≤ 1 / 1000 := by
    rw [zpow_neg]; norm_num
  have hδ0 : (0 : ℚ) < (2 : ℚ) ^ (-53 : ℤ) := by positivity
  generalize (2 : ℚ) ^ (-53 : ℤ) = δ at h1 h2 hδ hδ0
  generalize (fmul (flQ v t) (Number 100)).toRat = y at h2 ⊢
  generalize (flQ v t).toRat = x at h1 h2
  generalize (v : ℚ) / t = q at h1 h2 hq ⊢
  obtain ⟨h1l, h1u⟩ := h1
  obtain ⟨h2l, h2u⟩ := h2
  have hqδ : q * δ ≤ q * (1 / 1000) := mul_le_mul_of_nonneg_left hδ hq
  have hx0 : 0 ≤ x := by nlinarith
  have hxδ : x * δ ≤ x * (1 / 1000) := mul_le_mul_of_nonneg_left hδ hx0
  constructor <;> nlinarith

/-- The percentage and the exact value, in the rationals. -/
theorem percentOf_bounds (v t : Nat) (ht : 0 < t) :
    (997 / 10 : ℚ) * ((v : ℚ) / t) - 1 / 2 < (percentOf v t : ℚ) ∧
      (percentOf v t : ℚ) ≤ (1003 / 10 : ℚ) * ((v : ℚ) / t) + 1 / 2 := by
  unfold percentOf
  rw [if_neg (by omega)]
  obtain ⟨h1, h2⟩ := percent_value_bounds v t ht
  obtain ⟨h3, h4⟩ := mathRound_spec (fmul (fdiv (Number v) (Number t)) (Number 100))
  constructor <;> linarith

/-- A count that does not exceed the total gets a percentage of 100 at most. -/
theorem percentOf_le_hundred (v t : Nat) (h : v ≤ t) : percentOf v t ≤ 100 := by
  rcases Nat.eq_zero_or_pos t with rfl | ht
  · simp [percentOf]
  · have h2 := (percentOf_bounds v t ht).2
    have hq : (v : ℚ) / t ≤ 1 := by
      rw [div_le_one (by exact_mod_cast ht)]
      exact_mod_cast h
    have h3 : (percentOf v t : ℚ) < 101 := by linarith
    have h4 : percentOf v t < 101 := by exact_mod_cast h3
    omega

/-- C5, at a poll with 23 votes for A and 17 for B.  The exact percentage of A
is 57.5, which rounds half up to 58; `mapPollRow` yields 57, because the
binary64 quotient 23/40 lies below 0.575 and its product with 100 is
8092405580431359 * 2^-47, below 57.5.  The three examples of the specification
come out as it states them. -/
theorem percent_of_tie_rounds_down :
    (mapPollRow (countsRow 23 17 40)).percents = ⟨57, 43⟩ ∧
    specPercent 23 40 = 58 ∧
    fdiv (Number 23) (Number 40) = ⟨5179139571476070, -53⟩ ∧
    fmul (fdiv (Number 23) (Number 40)) (Number 100) = ⟨8092405580431359, -47⟩ ∧
    (mapPollRow (countsRow 1 2 3)).percents = ⟨33, 67⟩ ∧
    (mapPollRow (countsRow 1 1 2)).percents = ⟨50, 50⟩ ∧
    (mapPollRow (countsRow 0 0 0)).totalVotes = 0 ∧
    (mapPollRow (countsRow 0 0 0)).percents = ⟨0, 0⟩ := by
  decide

/-- C6. For a row whose total is the sum of its two counts and is positive, the
two percentages of `mapPollRow` add up to 99, 100 or 101. -/
theorem percents_sum_near_hundred (row : AggRow)
    (hsum : row.total_votes = row.votes_a + row.votes_b) (hpos : 0 < row.total_votes) :
    (mapPollRow row).percents.a + (mapPollRow row).percents.b = 99 ∨
    (mapPollRow row).percents.a + (mapPollRow row).percents.b = 100 ∨
    (mapPollRow row).percents.a + (mapPollRow row).percents.b = 101 := by
  obtain ⟨ha1, ha2⟩ := percentOf_bounds row.votes_a row.total_votes hpos
  obtain ⟨hb1, hb2⟩ := percentOf_bounds row.votes_b row.total_votes hpos
  have ht : (0 : ℚ) < row.total_votes := by exact_mod_cast hpos
  have hone : (row.votes_a : ℚ) / row.total_votes + (row.votes_b : ℚ) / row.total_votes = 1 := by
    rw [← add_div, div_eq_one_iff_eq (ne_of_gt ht), hsum]
    push_cast
    ring
  have hlo : (98 : ℚ) < (percentOf row.votes_a row.total_votes : ℚ) +
      (percentOf row.votes_b row.total_votes : ℚ) := by nlinarith
  have hhi : (percentOf row.votes_a row.total_votes : ℚ) +
      (percentOf row.votes_b row.total_votes : ℚ) < 102 := by nlinarith
  have hlo2 : 98 < percentOf row.votes_a row.total_votes + percentOf row.votes_b row.total_votes := by
    exact_mod_cast hlo
  have hhi2 : percentOf row.votes_a row.total_votes + percentOf row.votes_b row.total_votes < 102 := by
    exact_mod_cast hhi
  simp only [mapPollRow]
  omega

/-- One vote for A and two for B: 33 and 67. -/
theorem percents_sum_near_hundred_witness :
    (mapPollRow (countsRow 1 2 3)).percents.a + (mapPollRow (countsRow 1 2 3)).percents.b = 99 ∨
    (mapPollRow (countsRow 1 2 3)).percents.a + (mapPollRow (countsRow 1 2 3)).percents.b = 100 ∨
    (mapPollRow (countsRow 1 2 3)).percents.a + (mapPollRow (countsRow 1 2 3)).percents.b = 101 :=
  percents_sum_near_hundred (countsRow 1 2 3) (by decide) (by decide)

/-- C8. For every ledger, reached through the vote route or not, and every
poll, the view `mapPollRow` builds from the aggregate row of the poll has both
percentages between 0 and 100; the percentages, the two counts and the total
are natural numbers.  This holds for each row of the single-poll query and of
the recompute query of the vote route. -/
theorem percents_in_range (db : Db) :
    (∀ (p : PollRow) (uv : JsValue),
      (mapPollRow (aggregateRow db p uv)).percents.a ≤ 100 ∧
      (mapPollRow (aggregateRow db p uv)).percents.b ≤ 100) ∧
    (∀ viewer pollId, ∀ row ∈ pollByIdQuery db viewer pollId,
      (mapPollRow row).percents.a ≤ 100 ∧ (mapPollRow row).percents.b ≤ 100) ∧
    (∀ pollId, ∀ row ∈ voteResultsQuery db pollId,
      (mapPollRow row).percents.a ≤ 100 ∧ (mapPollRow row).percents.b ≤ 100) := by
  have key : ∀ (p : PollRow) (uv : JsValue),
      (mapPollRow (aggregateRow db p uv)).percents.a ≤ 100 ∧
      (mapPollRow (aggregateRow db p uv)).percents.b ≤ 100 := fun p uv =>
    ⟨percentOf_le_hundred _ _ (sumOption_le_countVotes "A" _),
      percentOf_le_hundred _ _ (sumOption_le_countVotes "B" _)⟩
  refine ⟨key, ?_, ?_⟩
  · intro viewer pollId row hrow
    simp only [pollByIdQuery, List.mem_map] at hrow
    obtain ⟨p, -, rfl⟩ := hrow
    exact key p _
  · intro pollId row hrow
    simp only [voteResultsQuery, List.mem_map] at hrow
    obtain ⟨p, -, rfl⟩ := hrow
    exact key p _

/-! ## Authentication -/

/-- The token of a header made of the prefix and a token. -/
theorem bearerToken_bearer (token : String) :
    bearerToken (some ("Bearer " ++ token)) = some token := by
  have h1 : ("Bearer " ++ token).toList = "Bearer ".toList ++ token.toList := by
    simp [String.toList]
  have h2 : "Bearer ".toList.isPrefixOf ("Bearer ".toList ++ token.toList) = true := by
    rw [List.isPrefixOf_iff_prefix]
    exact List.prefix_append _ _
  have h3 : ("Bearer ".toList ++ token.toList).drop 7 = token.toList :=
    List.drop_left' (by decide)
  simp only [bearerToken, Option.getD_some, h1, h2, h3, if_true]
  rfl

/-- A header that is absent or lacks the prefix yields no token. -/
theorem bearerToken_none (authorization : Option String)
    (h : authorization = none ∨
      ∃ header, authorization = some header ∧
        "Bearer ".toList.isPrefixOf header.toList = false) :
    bearerToken authorization = none := by
  rcases h with rfl | ⟨header, rfl, hp⟩
  · decide
  · simp only [bearerToken, Option.getD_some, hp]
    rfl

/-- What `requireAuth` answers once the header yields a non-empty token. -/
theorem requireAuth_token (verify : String → Option (Option Nat)) (users : List UserRow)
    (authorization : Option String) (lookupFails : Bool) (token : String)
    (hb : bearerToken authorization = some token) (ht : token ≠ "") :
    requireAuth verify users authorization lookupFails =
      match verify token with
      | none => .respond 401 "Invalid auth token."
      | some payloadId =>
        if lookupFails then .respond 401 "Invalid auth token."
        else
          match userByIdQuery users payloadId with
          | [] => .respond 401 "Invalid auth token."
          | user :: _ =>
            if user.banned then .respond 403 "User is banned."
            else .next { id := user.id, email := user.email, role := user.role } := by
  unfold requireAuth
  rw [hb]
  simp only [ht, if_false]

/-- The route answers with the status and message of `requireAuth` and leaves
the database alone when `requireAuth` does not call `next()`. -/
theorem voteRoute_respond (verify : String → Option (Option Nat)) (users : List UserRow)
    (app : App) (db : Db) (req : VoteRequest) (status : Nat) (msg : String)
    (h : requireAuth verify users req.authorization req.lookupFails = .respond status msg) :
    voteRoute verify users app db req =
      { db := db, emitted := [], outcome := .response status (.error msg) } := by
  unfold voteRoute
  rw [h]

/-- C11. A vote request whose token verifies as that of a user the users query
finds with the banned flag set is answered 403 "User is banned." by
`requireAuth`, which does not call `next()`: the route returns that answer, the
database is the one before and no event is emitted. -/
theorem banned_user_vote_forbidden (verify : String → Option (Option Nat))
    (users : List UserRow) (app : App) (db : Db) (req : VoteRequest) (token : String)
    (id : Nat) (user : UserRow)
    (hh : req.authorization = some ("Bearer " ++ token)) (ht : token ≠ "")
    (hv : verify token = some (some id)) (hl : req.lookupFails = false)
    (hu : (userByIdQuery users (some id)).head? = some user) (hb : user.banned = true) :
    requireAuth verify users req.authorization req.lookupFails
      = .respond 403 "User is banned." ∧
    voteRoute verify users app db req =
      { db := db, emitted := [], outcome := .response 403 (.error "User is banned.") } := by
  have h : requireAuth verify users req.authorization req.lookupFails
      = .respond 403 "User is banned." := by
    rw [requireAuth_token verify users _ _ token (by rw [hh]; exact bearerToken_bearer token) ht,
      hv, hl]
    cases hq : userByIdQuery users (some id) with
    | nil => rw [hq] at hu; cases hu
    | cons u rest =>
      rw [hq] at hu
      simp only [List.head?_cons, Option.some.injEq] at hu
      subst hu
      simp only [Bool.false_eq_true, if_false]
      rw [hq]
      simp [hb]
  exact ⟨h, voteRoute_respond verify users app db req 403 _ h⟩

/-- The banned user 2 votes A on poll 1. -/
theorem banned_user_vote_forbidden_witness :
    requireAuth sampleVerify sampleUsers (some ("Bearer " ++ "t2")) false
      = .respond 403 "User is banned." ∧
    voteRoute sampleVerify sampleUsers appFk ⟨[catsDogs], []⟩
      { authorization := some ("Bearer " ++ "t2"), pollId := 1, option := .string "A"
        lookupFails := false, storageFails := false } =
      { db := ⟨[catsDogs], []⟩, emitted := [],
        outcome := .response 403 (.error "User is banned.") } :=
  banned_user_vote_forbidden sampleVerify sampleUsers appFk ⟨[catsDogs], []⟩
    { authorization := some ("Bearer " ++ "t2"), pollId := 1, option := .string "A"
      lookupFails := false, storageFails := false } "t2" 2
    { id := 2, email := "u2@example.org", role := "user", banned := true }
    rfl (by decide) (by decide) rfl (by decide) rfl

theorem requireAuth_no_token (verify : String → Option (Option Nat)) (users : List UserRow)
    (authorization : Option String) (lookupFails : Bool)
    (h : bearerToken authorization = none ∨ bearerToken authorization = some "") :
    requireAuth verify users authorization lookupFails = .respond 401 "Missing auth token." := by
  unfold requireAuth
  rcases h with h | h <;> simp [h]

/-- C12. A vote request whose Authorization header is absent, lacks the prefix
"Bearer ", carries an empty token, carries a token `jwt.verify` rejects, or
carries a verified token whose id is that of no user, is answered 401 by
`requireAuth`, which does not call `next()`: the route returns that answer, the
database is the one before and no event is emitted.  And `requireAuth` calls
`next()` only when the header carries a non-empty token that verifies with the
id of a user row that is not banned; `req.user` is then that user. -/
theorem unverified_vote_unauthorized (verify : String → Option (Option Nat))
    (users : List UserRow) (app : App) (db : Db) (req : VoteRequest) :
    ((req.authorization = none ∨
      (∃ header, req.authorization = some header ∧
        "Bearer ".toList.isPrefixOf header.toList = false) ∨
      req.authorization = some "Bearer " ∨
      (∃ token, req.authorization = some ("Bearer " ++ token) ∧ verify token = none) ∨
      (∃ token pid, req.authorization = some ("Bearer " ++ token) ∧
        verify token = some pid ∧ ∀ u ∈ users, pid ≠ some u.id)) →
      ∃ msg, requireAuth verify users req.authorization req.lookupFails = .respond 401 msg ∧
        voteRoute verify users app db req =
          { db := db, emitted := [], outcome := .response 401 (.error msg) }) ∧
    (∀ user, requireAuth verify users req.authorization req.lookupFails = .next user →
      ∃ token id row, bearerToken req.authorization = some token ∧ token ≠ "" ∧
        verify token = some (some id) ∧ req.lookupFails = false ∧ row ∈ users ∧ row.id = id ∧
        row.banned = false ∧ user = { id := row.id, email := row.email, role := row.role }) := by
  constructor
  · intro h
    have key : ∃ msg, requireAuth verify users req.authorization req.lookupFails
        = .respond 401 msg := by
      rcases h with h | h | h | ⟨token, h, hv⟩ | ⟨token, pid, h, hv, hu⟩
      · exact ⟨_, requireAuth_no_token verify users _ _ (Or.inl (bearerToken_none _ (Or.inl h)))⟩
      · exact ⟨_, requireAuth_no_token verify users _ _ (Or.inl (bearerToken_none _ (Or.inr h)))⟩
      · exact ⟨_, requireAuth_no_token verify users _ _ (Or.inr (by rw [h]; decide))⟩
      · have hb : bearerToken req.authorization = some token := by
          rw [h]; exact bearerToken_bearer token
        by_cases ht : token = ""
        · exact ⟨_, requireAuth_no_token verify users _ _ (Or.inr (by rw [hb, ht]))⟩
        · exact ⟨_, by rw [requireAuth_token verify users _ _ token hb ht, hv]⟩
      · have hb : bearerToken req.authorization = some token := by
          rw [h]; exact bearerToken_bearer token
        by_cases ht : token = ""
        · exact ⟨_, requireAuth_no_token verify users _ _ (Or.inr (by rw [hb, ht]))⟩
        · have hq : userByIdQuery users pid = [] := by
            simp only [userByIdQuery, List.filter_eq_nil_iff]
            intro u hmem
            simpa using hu u hmem
          refine ⟨"Invalid auth token.", ?_⟩
          rw [requireAuth_token verify users _ _ token hb ht, hv]
          simp only [hq]
          split <;> rfl
    obtain ⟨msg, hmsg⟩ := key
    exact ⟨msg, hmsg, voteRoute_respond verify users app db req 401 msg hmsg⟩
  · intro user h
    cases hb : bearerToken req.authorization with
    | none => rw [requireAuth_no_token verify users _ _ (Or.inl hb)] at h; cases h
    | some token =>
      by_cases ht : token = ""
      · rw [requireAuth_no_token verify users _ _ (Or.inr (by rw [hb, ht]))] at h; cases h
      · rw [requireAuth_token verify users _ _ token hb ht] at h
        cases hv : verify token with
        | none => rw [hv] at h; cases h
        | some pid =>
          rw [hv] at h
          simp only at h
          cases hl : req.lookupFails with
          | true => rw [hl] at h; simp at h
          | false =>
            rw [hl] at h
            simp only [Bool.false_eq_true, if_false] at h
            cases hq : userByIdQuery users pid with
            | nil => rw [hq] at h; cases h
            | cons row rest =>
              rw [hq] at h
              simp only at h
              have hmem : row ∈ userByIdQuery users pid := by rw [hq]; exact List.mem_cons_self _ _
              simp only [userByIdQuery, List.mem_filter, beq_iff_eq] at hmem
              cases hban : row.banned with
              | true => rw [hban] at h; simp at h
              | false =>
                rw [hban] at h
                simp only [Bool.false_eq_true, if_false, AuthResult.next.injEq] at h
                exact ⟨token, row.id, row, rfl, ht, by rw [hv, hmem.2], rfl, hmem.1, rfl, hban,
                  h.symm⟩

/-- A request without Authorization header, for a vote A on poll 1. -/
theorem unverified_vote_unauthorized_witness :
    ∃ msg, requireAuth sampleVerify sampleUsers none false = .respond 401 msg ∧
      voteRoute sampleVerify sampleUsers appFk ⟨[catsDogs], []⟩
        { authorization := none, pollId := 1, option := .string "A"
          lookupFails := false, storageFails := false } =
        { db := ⟨[catsDogs], []⟩, emitted := [], outcome := .response 401 (.error msg) } :=
  (unverified_vote_unauthorized sampleVerify sampleUsers appFk ⟨[catsDogs], []⟩
    { authorization := none, pollId := 1, option := .string "A"
      lookupFails := false, storageFails := false }).1 (Or.inl rfl)

/-! ## Failures and events of the vote route -/

/-- C13. When the option is valid and the insert transaction fails, because the
store fails or because the insert is refused, the handler answers 500 "Failed
to submit vote.", the database is the one before the call, no event is
emitted, and the only statement sent to the store is the insert: the recompute
query is not run. -/
theorem insert_failure_reported (app : App) (db : Db) (call : VoteCall) (option e : String)
    (hi : includesAB call.option = some option)
    (ht : withTransaction call.storageFails db
      (fun d => insertVote app d call.userId call.pollId option) = .error e) :
    postVote app db call =
      { db := db, emitted := [],
        outcome := .response 500 (.error "Failed to submit vote.") } ∧
    postVoteStoreOps app db call = [.insertVote call.userId call.pollId option] := by
  constructor
  · unfold postVote
    rw [hi]
    simp only
    rw [ht]
  · unfold postVoteStoreOps
    rw [hi]
    simp only
    rw [ht]

/-- User 2 votes B on poll 1 while the store is down. -/
theorem insert_failure_reported_witness :
    postVote appFk ⟨[catsDogs], [⟨1, 1, "A"⟩]⟩
        { userId := 2, pollId := 1, option := .string "B", storageFails := true } =
      { db := ⟨[catsDogs], [⟨1, 1, "A"⟩]⟩, emitted := [],
        outcome := .response 500 (.error "Failed to submit vote.") } ∧
    postVoteStoreOps appFk ⟨[catsDogs], [⟨1, 1, "A"⟩]⟩
        { userId := 2, pollId := 1, option := .string "B", storageFails := true } =
      [.insertVote 2 1 "B"] :=
  insert_failure_reported appFk ⟨[catsDogs], [⟨1, 1, "A"⟩]⟩
    { userId := 2, pollId := 1, option := .string "B", storageFails := true } "B"
    "storage unavailable" (by decide) rfl

/-- C14. A vote call that answers with a poll view answers 200 and, with a
socket server installed, emits exactly one `poll:update` event whose payload is
the view of the response (without a socket server it emits none); a call that
fails the validation of the option, or whose insert transaction fails, emits
none. -/
theorem one_event_per_successful_vote (app : App) (db : Db) (call : VoteCall) :
    (∀ status v, (postVote app db call).outcome = .response status (.view v) →
      status = 200 ∧
      (app.broadcaster = true → (postVote app db call).emitted = [v]) ∧
      (app.broadcaster = false → (postVote app db call).emitted = [])) ∧
    (includesAB call.option = none → (postVote app db call).emitted = []) ∧
    (∀ option e, includesAB call.option = some option →
      withTransaction call.storageFails db
        (fun d => insertVote app d call.userId call.pollId option) = .error e →
      (postVote app db call).emitted = []) := by
  refine ⟨?_, ?_, ?_⟩
  · intro status v h
    cases hi : includesAB call.option with
    | none =>
      unfold postVote at h
      rw [hi] at h
      simp at h
    | some option =>
      cases ht : withTransaction call.storageFails db
          (fun d => insertVote app d call.userId call.pollId option) with
      | error e =>
        unfold postVote at h
        rw [hi] at h
        simp only at h
        rw [ht] at h
        simp at h
      | ok db1 =>
        cases hr : (voteResultsQuery db1 call.pollId).head? with
        | none =>
          unfold postVote at h
          rw [hi] at h
          simp only at h
          rw [ht] at h
          simp only at h
          rw [hr] at h
          simp at h
        | some row =>
          rw [postVote_ok app db db1 call option row hi ht hr] at h ⊢
          simp only [Outcome.response.injEq, Body.view.injEq] at h
          obtain ⟨h1, h2⟩ := h
          subst h2
          refine ⟨h1.symm, ?_, ?_⟩
          · intro hb; simp [hb]
          · intro hb; simp [hb]
  · intro h
    unfold postVote
    rw [h]
  · intro option e hi ht
    unfold postVote
    rw [hi]
    simp only
    rw [ht]

/-- User 2 votes B on poll 1 with a socket server: one event, the view of the
response. -/
theorem one_event_per_successful_vote_witness :
    ∃ v, (postVote appFk ⟨[catsDogs], [⟨1, 1, "A"⟩]⟩ (voteCall 2 1 "B")).outcome
        = .response 200 (.view v) ∧
      (postVote appFk ⟨[catsDogs], [⟨1, 1, "A"⟩]⟩ (voteCall 2 1 "B")).emitted = [v] :=
  ⟨_, rfl,
    ((one_event_per_successful_vote appFk ⟨[catsDogs], [⟨1, 1, "A"⟩]⟩ (voteCall 2 1 "B")).1
      200 _ rfl).2.1 rfl⟩

/-! ## The read routes -/

/-- The first row of the single-poll query is the aggregate of the first poll
with the requested id. -/
theorem pollByIdQuery_head (db : Db) (viewer : Option Nat) (pollId : Nat) :
    (pollByIdQuery db viewer pollId).head? =
      (db.polls.find? (fun p => p.id == pollId)).map (fun p =>
        aggregateRow db p (maxUserVote viewer (joinedVotes db p))) := by
  unfold pollByIdQuery
  rw [List.head?_map, List.filter_head?]

/-- The handler of `GET /:pollId` in terms of the first poll with the id. -/
theorem getPollById_eq (db : Db) (viewer : Option Nat) (pollId : Nat)
    (comments : List CommentView) :
    getPollById db viewer pollId comments =
      match db.polls.find? (fun p => p.id == pollId) with
      | none => { status := 404, body := .error "Poll not found." }
      | some p =>
        { status := 200
          body := .detail
            (mapPollRow (aggregateRow db p (maxUserVote viewer (joinedVotes db p)))) comments } := by
  have h := pollByIdQuery_head db viewer pollId
  unfold getPollById
  cases hq : pollByIdQuery db viewer pollId with
  | nil =>
    rw [hq] at h
    cases hf : db.polls.find? (fun p => p.id == pollId) with
    | none => rfl
    | some p => rw [hf] at h; simp at h
  | cons row rest =>
    rw [hq] at h
    cases hf : db.polls.find? (fun p => p.id == pollId) with
    | none => rw [hf] at h; simp at h
    | some p =>
      rw [hf] at h
      simp only [List.head?_cons, Option.map_some', Option.some.injEq] at h
      rw [h]

/-- The votes of a viewer among the rows joined to a poll are the votes of the
pair. -/
theorem viewer_votes_eq (db : Db) (v : Nat) (p : PollRow) :
    (joinedVotes db p).filter (fun w => some v == some w.user_id) =
      db.votes.filter (fun w => w.user_id == v && w.poll_id == p.id) := by
  unfold joinedVotes
  rw [List.filter_filter]
  congr 1
  funext w
  have hc : (v == w.user_id) = (w.user_id == v) := by
    by_cases h1 : w.user_id = v
    · simp [h1]
    · have h3 : ¬ v = w.user_id := fun h => h1 h.symm
      simp [h1, h3]
  simp only [Option.some_beq_some, hc, Bool.and_comm]

/-- With one vote per pair at most, the `user_vote` column is the stored option
of the viewer, or `NULL`. -/
theorem maxUserVote_eq_spec (db : Db) (viewer : Option Nat) (p : PollRow)
    (hinv : ∀ u q, votesOf db u q ≤ 1) :
    maxUserVote viewer (joinedVotes db p) = specUserVote db viewer p.id := by
  cases viewer with
  | none => simp [maxUserVote, specUserVote, sqlMax]
  | some v =>
    have hlen := hinv v p.id
    unfold maxUserVote specUserVote storedOption
    simp only
    rw [viewer_votes_eq, ← List.filter_head?]
    unfold votesOf at hlen
    cases hF : db.votes.filter (fun w => w.user_id == v && w.poll_id == p.id) with
    | nil => rfl
    | cons w rest =>
      rw [hF] at hlen
      cases rest with
      | nil => rfl
      | cons w2 rest2 => simp at hlen

/-- C16. In a ledger with one vote per user and poll at most, the view of a
read carries as `userVote` the option of the viewer's vote on the poll when the
viewer has one and `null` when the viewer has none, for `GET /:pollId` and for
every poll of `GET /`; without a viewer id both reads answer as with one, the
feed lists the same polls, and `userVote` is `null` in every view. -/
theorem reads_report_viewer_vote (db : Db) (hinv : ∀ u p, votesOf db u p ≤ 1)
    (viewer : Option Nat) :
    (∀ pollId comments poll cs,
      getPollById db viewer pollId comments = { status := 200, body := .detail poll cs } →
      poll.userVote = specUserVote db viewer pollId) ∧
    (∀ now, ∀ view ∈ getPolls db viewer now, view.userVote = specUserVote db viewer view.id) ∧
    (∀ pollId comments,
      (getPollById db none pollId comments).status = (getPollById db viewer pollId comments).status ∧
      ∀ poll cs, getPollById db none pollId comments = { status := 200, body := .detail poll cs } →
        poll.userVote = .null) ∧
    (∀ now, (getPolls db none now).map (fun v => v.id) = (getPolls db viewer now).map (fun v => v.id) ∧
      ∀ view ∈ getPolls db none now, view.userVote = .null) := by
  have hdetail : ∀ (w : Option Nat) pollId comments poll cs,
      getPollById db w pollId comments = { status := 200, body := .detail poll cs } →
      poll.userVote = specUserVote db w pollId := by
    intro w pollId comments poll cs h
    rw [getPollById_eq] at h
    cases hf : db.polls.find? (fun p => p.id == pollId) with
    | none => rw [hf] at h; simp at h
    | some p =>
      rw [hf] at h
      simp only [DetailResponse.mk.injEq, DetailBody.detail.injEq, true_and] at h
      have hid : p.id = pollId := by simpa using List.find?_some hf
      rw [← h.1, ← hid]
      exact maxUserVote_eq_spec db w p hinv
  have hfeed : ∀ (w : Option Nat) now, ∀ view ∈ getPolls db w now,
      view.userVote = specUserVote db w view.id := by
    intro w now view hview
    simp only [getPolls, feedQuery, List.map_map, List.mem_map, Function.comp] at hview
    obtain ⟨p, -, rfl⟩ := hview
    exact maxUserVote_eq_spec db w p hinv
  refine ⟨hdetail viewer, hfeed viewer, ?_, ?_⟩
  · intro pollId comments
    refine ⟨?_, fun poll cs h => hdetail none pollId comments poll cs h⟩
    rw [getPollById_eq, getPollById_eq]
    cases db.polls.find? (fun p => p.id == pollId) <;> rfl
  · intro now
    refine ⟨?_, fun view hview => hfeed none now view hview⟩
    simp only [getPolls, feedQuery, List.map_map]
    rfl

/-- User 1 voted A on poll 1 and reads it; user 2 did not vote. -/
theorem reads_report_viewer_vote_witness :
    (∀ view ∈ getPolls ⟨[catsDogs], [⟨1, 1, "A"⟩]⟩ (some 1) 10,
      view.userVote = specUserVote ⟨[catsDogs], [⟨1, 1, "A"⟩]⟩ (some 1) view.id) ∧
    specUserVote ⟨[catsDogs], [⟨1, 1, "A"⟩]⟩ (some 1) 1 = .string "A" ∧
    specUserVote ⟨[catsDogs], [⟨1, 1, "A"⟩]⟩ (some 2) 1 = .null :=
  ⟨(reads_report_viewer_vote ⟨[catsDogs], [⟨1, 1, "A"⟩]⟩
      (fun u p => by
        simp only [votesOf, List.filter_cons, List.filter_nil]
        split <;> simp)
      (some 1)).2.1 10,
    by decide, by decide⟩

/-- C17. The feed of `GET /` is built from a list of polls that holds exactly
the polls of the table that are active at the time of the query, each as often
as the table holds it, ordered by `created_at` descending; and a poll is active
exactly when its status is "approved" and its `ends_at` is null or later than
the time of the query. -/
theorem feed_is_active_polls_newest_first (db : Db) (viewer : Option Nat) (now : Nat) :
    (∃ ps : List PollRow, ps.Perm (db.polls.filter (isActive now)) ∧
      ps.Sorted newerFirst ∧
      getPolls db viewer now =
        ps.map (fun p => mapPollRow (aggregateRow db p (maxUserVote viewer (joinedVotes db p)))) ∧
      ((getPolls db viewer now).map (fun v => v.createdAt)).Sorted (fun x y => y ≤ x)) ∧
    (∀ p : PollRow, isActive now p = true ↔
      p.status = "approved" ∧ (p.ends_at = none ∨ ∃ t, p.ends_at = some t ∧ now < t)) := by
  have htotal : IsTotal PollRow newerFirst := ⟨fun p q => Nat.le_total q.created_at p.created_at⟩
  have htrans : IsTrans PollRow newerFirst :=
    ⟨fun p q r (h1 : q.created_at ≤ p.created_at) (h2 : r.created_at ≤ q.created_at) =>
      Nat.le_trans h2 h1⟩
  have hsorted : ((db.polls.filter (isActive now)).insertionSort newerFirst).Sorted newerFirst :=
    List.sorted_insertionSort newerFirst _
  constructor
  · refine ⟨(db.polls.filter (isActive now)).insertionSort newerFirst,
      List.perm_insertionSort _ _, hsorted, ?_, ?_⟩
    · simp only [getPolls, feedQuery, List.map_map]
      rfl
    · simp only [getPolls, feedQuery, List.map_map]
      unfold List.Sorted at hsorted ⊢
      rw [List.pairwise_map]
      exact hsorted
  · intro p
    unfold isActive
    cases hends : p.ends_at with
    | none => simp
    | some t => simp

/-- C18. The handler of `GET /:pollId` answers 404 "Poll not found." exactly
when no poll of the table has the id; otherwise it answers 200 with the view of
the first poll with that id and the comments, also when no vote is joined to
the poll, and then the view has total 0, counts 0 and percentages 0. -/
theorem poll_detail_not_found_iff (db : Db) (viewer : Option Nat) (pollId : Nat)
    (comments : List CommentView) :
    ((getPollById db viewer pollId comments).status = 404 ↔ pollExists db pollId = false) ∧
    (pollExists db pollId = false →
      getPollById db viewer pollId comments =
        { status := 404, body := .error "Poll not found." }) ∧
    (pollExists db pollId = true →
      ∃ p, p ∈ db.polls ∧ p.id = pollId ∧
        getPollById db viewer pollId comments =
          { status := 200
            body := .detail
              (mapPollRow (aggregateRow db p (maxUserVote viewer (joinedVotes db p))))
              comments } ∧
        (joinedVotes db p = [] →
          (mapPollRow (aggregateRow db p (maxUserVote viewer (joinedVotes db p)))).totalVotes = 0 ∧
          (mapPollRow (aggregateRow db p (maxUserVote viewer (joinedVotes db p)))).votes = ⟨0, 0⟩ ∧
          (mapPollRow (aggregateRow db p (maxUserVote viewer (joinedVotes db p)))).percents
            = ⟨0, 0⟩)) := by
  have hnone : pollExists db pollId = false →
      db.polls.find? (fun p => p.id == pollId) = none := by
    intro h
    rw [List.find?_eq_none]
    intro p hp
    simp only [pollExists, List.any_eq_false] at h
    exact h p hp
  have hsome : pollExists db pollId = true →
      ∃ p, db.polls.find? (fun p => p.id == pollId) = some p := by
    intro h
    rw [← Option.isSome_iff_exists, List.find?_isSome]
    simpa [pollExists] using h
  refine ⟨?_, ?_, ?_⟩
  · rw [getPollById_eq]
    cases he : pollExists db pollId with
    | false => rw [hnone he]; simp
    | true =>
      obtain ⟨p, hp⟩ := hsome he
      rw [hp]
      simp
  · intro he
    rw [getPollById_eq, hnone he]
  · intro he
    obtain ⟨p, hp⟩ := hsome he
    refine ⟨p, List.mem_of_find?_eq_some hp, by simpa using List.find?_some hp, ?_, ?_⟩
    · rw [getPollById_eq, hp]
    · intro hj
      simp [mapPollRow, aggregateRow, hj, sumOption, countVotes, percentOf]

/-- Poll 1 without votes is found and has zero counts; poll 7 is not found. -/
theorem poll_detail_not_found_iff_witness :
    getPollById ⟨[catsDogs], []⟩ none 7 [] = { status := 404, body := .error "Poll not found." } ∧
    ∃ p, p ∈ [catsDogs] ∧ p.id = 1 ∧
      getPollById ⟨[catsDogs], []⟩ none 1 [] =
        { status := 200
          body := .detail
            (mapPollRow (aggregateRow ⟨[catsDogs], []⟩ p
              (maxUserVote none (joinedVotes ⟨[catsDogs], []⟩ p)))) [] } ∧
      (joinedVotes ⟨[catsDogs], []⟩ p = [] →
        (mapPollRow (aggregateRow ⟨[catsDogs], []⟩ p
          (maxUserVote none (joinedVotes ⟨[catsDogs], []⟩ p)))).totalVotes = 0 ∧
        (mapPollRow (aggregateRow ⟨[catsDogs], []⟩ p
          (maxUserVote none (joinedVotes ⟨[catsDogs], []⟩ p)))).votes = ⟨0, 0⟩ ∧
        (mapPollRow (aggregateRow ⟨[catsDogs], []⟩ p
          (maxUserVote none (joinedVotes ⟨[catsDogs], []⟩ p)))).percents = ⟨0, 0⟩) :=
  ⟨(poll_detail_not_found_iff ⟨[catsDogs], []⟩ none 7 []).2.1 (by decide),
    (poll_detail_not_found_iff ⟨[catsDogs], []⟩ none 1 []).2.2 (by decide)⟩

/-! ## Reading after a vote -/

/-- A call that answers with a view had a valid option, a working store and an
existing poll. -/
theorem postVote_view_inv (app : App) (db : Db) (call : VoteCall) (status : Nat) (v : PollView)
    (h : (postVote app db call).outcome = .response status (.view v)) :
    (call.option = .string "A" ∨ call.option = .string "B") ∧ call.storageFails = false ∧
      pollExists db call.pollId = true := by
  cases hi : includesAB call.option with
  | none =>
    unfold postVote at h
    rw [hi] at h
    simp at h
  | some option =>
    obtain ⟨ho1, ho2⟩ := includesAB_eq_some hi
    cases ht : withTransaction call.storageFails db
        (fun d => insertVote app d call.userId call.pollId option) with
    | error e =>
      unfold postVote at h
      rw [hi] at h
      simp only at h
      rw [ht] at h
      simp at h
    | ok db1 =>
      cases hr : (voteResultsQuery db1 call.pollId).head? with
      | none =>
        unfold postVote at h
        rw [hi] at h
        simp only at h
        rw [ht] at h
        simp only at h
        rw [hr] at h
        simp at h
      | some row =>
        have hs : call.storageFails = false := by
          cases hsf : call.storageFails with
          | false => rfl
          | true => rw [hsf] at ht; simp [withTransaction] at ht
        have hdb1 : db1 = (postVote app db call).db := by
          rw [postVote_ok app db db1 call option row hi ht hr]
        have hpolls : db1.polls = db.polls := by rw [hdb1, postVote_polls]
        refine ⟨?_, hs, ?_⟩
        · rcases ho2 with rfl | rfl
          · exact Or.inl ho1
          · exact Or.inr ho1
        · rw [voteResultsQuery_head] at hr
          cases hf : db1.polls.find? (fun p => p.id == call.pollId) with
          | none => rw [hf] at hr; simp at hr
          | some p =>
            have hmem := List.mem_of_find?_eq_some hf
            have hid := List.find?_some hf
            rw [hpolls] at hmem
            simp only [pollExists, List.any_eq_true]
            exact ⟨p, hmem, hid⟩

/-- A call keeps the ledger well formed. -/
theorem postVote_ledgerOk (app : App) (db : Db) (call : VoteCall) (h : LedgerOk db) :
    LedgerOk (postVote app db call).db :=
  ⟨postVote_votesOf_le_one app db call h.1, postVote_options app db call h.2⟩

/-- The per-option sum counts the rows with the option. -/
theorem sumOption_eq_length (o : String) (vs : List VoteRow) :
    sumOption o vs = (vs.filter (fun v => v.option == o)).length := by
  induction vs with
  | nil => rfl
  | cons w rest ih =>
    have ih2 : sumOption o rest = (rest.filter (fun v => v.option == o)).length := ih
    have hc : sumOption o (w :: rest) = (if w.option == o then 1 else 0) + sumOption o rest := by
      simp [sumOption]
    rw [hc, ih2, List.filter_cons]
    cases (w.option == o) with
    | true => simp only [if_true, List.length_cons]; omega
    | false => simp

/-- A pair with a vote has a stored option, carried by a row of the ledger. -/
theorem storedOption_of_pos (db : Db) (u p : Nat) (h : 1 ≤ votesOf db u p) :
    ∃ w, w ∈ db.votes ∧ w.user_id = u ∧ w.poll_id = p ∧ storedOption db u p = some w.option := by
  unfold votesOf at h
  unfold storedOption
  rw [← List.filter_head?]
  cases hF : db.votes.filter (fun v => v.user_id == u && v.poll_id == p) with
  | nil => rw [hF] at h; simp at h
  | cons w rest =>
    have hmem : w ∈ db.votes.filter (fun v => v.user_id == u && v.poll_id == p) := by
      rw [hF]; exact List.mem_cons_self _ _
    simp only [List.mem_filter, Bool.and_eq_true, beq_iff_eq] at hmem
    exact ⟨w, hmem.1, hmem.2.1, hmem.2.2, rfl⟩

/-- The counts of the view of a poll are the numbers of its ledger rows with
the option. -/
theorem aggregate_counts (db : Db) (p : PollRow) (uv : JsValue) :
    (mapPollRow (aggregateRow db p uv)).votes.a =
        (db.votes.filter (fun w => w.poll_id == p.id && w.option == "A")).length ∧
      (mapPollRow (aggregateRow db p uv)).votes.b =
        (db.votes.filter (fun w => w.poll_id == p.id && w.option == "B")).length := by
  simp only [mapPollRow, aggregateRow, sumOption_eq_length, joinedVotes, List.filter_filter]
  constructor <;> congr 2 <;> funext w <;> exact Bool.and_comm _ _

/-- C15. In a well-formed ledger, after a vote call of user `u` on poll `p` that
answered 200 with a view, `GET /:pollId` for `p` with viewer id `u` on the
ledger the call left answers 200 with a view whose `userVote` is the option
stored for `u` on `p`, and whose count for that option is at least 1 and is the
number of ledger votes on `p` with that option. -/
theorem read_after_vote_shows_vote (app : App) (db : Db) (call : VoteCall)
    (comments : List CommentView) (v : PollView) (hok : LedgerOk db)
    (hsucc : (postVote app db call).outcome = .response 200 (.view v)) :
    ∃ (s : String) (poll : PollView),
      storedOption (postVote app db call).db call.userId call.pollId = some s ∧
      getPollById (postVote app db call).db (some call.userId) call.pollId comments
        = { status := 200, body := .detail poll comments } ∧
      poll.userVote = .string s ∧
      ((s = "A" ∧ 1 ≤ poll.votes.a ∧
          poll.votes.a = ((postVote app db call).db.votes.filter
            (fun w => w.poll_id == call.pollId && w.option == "A")).length) ∨
        (s = "B" ∧ 1 ≤ poll.votes.b ∧
          poll.votes.b = ((postVote app db call).db.votes.filter
            (fun w => w.poll_id == call.pollId && w.option == "B")).length)) := by
  obtain ⟨hopt, hs, hp⟩ := postVote_view_inv app db call 200 v hsucc
  have hok1 := postVote_ledgerOk app db call hok
  have hpos := postVote_votesOf_pos app db call hopt hs hp
  have hpolls := postVote_polls app db call
  generalize (postVote app db call).db = db1 at hok1 hpos hpolls ⊢
  obtain ⟨w, hw, hwu, hwp, hst⟩ := storedOption_of_pos db1 call.userId call.pollId hpos
  have hAB := hok1.2 w hw
  have hfind : ∃ q, db1.polls.find? (fun p => p.id == call.pollId) = some q := by
    rw [← Option.isSome_iff_exists, List.find?_isSome, hpolls]
    simpa [pollExists] using hp
  obtain ⟨q, hq⟩ := hfind
  have hqid : q.id = call.pollId := by simpa using List.find?_some hq
  have huv : maxUserVote (some call.userId) (joinedVotes db1 q) = .string w.option := by
    rw [maxUserVote_eq_spec db1 (some call.userId) q hok1.1, hqid]
    simp only [specUserVote, hst]
  obtain ⟨hca, hcb⟩ := aggregate_counts db1 q (maxUserVote (some call.userId) (joinedVotes db1 q))
  rw [hqid] at hca hcb
  refine ⟨w.option,
    mapPollRow (aggregateRow db1 q (maxUserVote (some call.userId) (joinedVotes db1 q))),
    hst, ?_, ?_, ?_⟩
  · rw [getPollById_eq, hq]
  · exact huv
  · rcases hAB with hA | hB
    · left
      refine ⟨hA, ?_, hca⟩
      rw [hca]
      exact List.length_pos_of_mem (List.mem_filter.2 ⟨hw, by simp [hwp, hA]⟩)
    · right
      refine ⟨hB, ?_, hcb⟩
      rw [hcb]
      exact List.length_pos_of_mem (List.mem_filter.2 ⟨hw, by simp [hwp, hB]⟩)

/-- User 1 votes A on the fresh poll 1 and reads it. -/
theorem read_after_vote_shows_vote_witness :
    ∃ (s : String) (poll : PollView),
      storedOption (postVote appFk ⟨[catsDogs], []⟩ (voteCall 1 1 "A")).db 1 1 = some s ∧
      getPollById (postVote appFk ⟨[catsDogs], []⟩ (voteCall 1 1 "A")).db (some 1) 1 []
        = { status := 200, body := .detail poll [] } ∧
      poll.userVote = .string s ∧
      ((s = "A" ∧ 1 ≤ poll.votes.a ∧
          poll.votes.a = ((postVote appFk ⟨[catsDogs], []⟩ (voteCall 1 1 "A")).db.votes.filter
            (fun w => w.poll_id == 1 && w.option == "A")).length) ∨
        (s = "B" ∧ 1 ≤ poll.votes.b ∧
          poll.votes.b = ((postVote appFk ⟨[catsDogs], []⟩ (voteCall 1 1 "A")).db.votes.filter
            (fun w => w.poll_id == 1 && w.option == "B")).length)) :=
  read_after_vote_shows_vote appFk ⟨[catsDogs], []⟩ (voteCall 1 1 "A") [] _
    ⟨fun u p => by simp [votesOf], fun v hv => by cases hv⟩ rfl

/-! ## Order of arrival -/

/-- The tables after a call are the old ones with the inserted rows appended. -/
theorem postVote_db_eq (app : App) (db : Db) (call : VoteCall) :
    (postVote app db call).db = { db with votes := db.votes ++ insertedRows app db call } := by
  rw [postVote_db]
  unfold insertedRows
  cases hi : includesAB call.option with
  | none => simp
  | some option =>
    simp only
    unfold withTransaction insertVote
    cases call.storageFails with
    | true => simp
    | false =>
      simp only [Bool.false_eq_true, if_false]
      cases db.votes.any (fun v => v.user_id == call.userId && v.poll_id == call.pollId) with
      | true => simp
      | false =>
        simp only [Bool.false_eq_true, if_false]
        cases (app.votesPollFk && !(db.polls.any (fun p => p.id == call.pollId))) with
        | true => simp
        | false => simp

/-- The inserted rows carry the user of the call. -/
theorem insertedRows_user (app : App) (db : Db) (call : VoteCall) :
    ∀ w ∈ insertedRows app db call, w.user_id = call.userId := by
  intro w hw
  unfold insertedRows at hw
  split at hw
  · cases hw
  · split at hw
    · cases hw
    · split at hw
      · cases hw
      · split at hw
        · cases hw
        · rw [List.mem_singleton.1 hw]

/-- Rows of other users do not change what a call inserts. -/
theorem insertedRows_append (app : App) (db : Db) (call : VoteCall) (rows : List VoteRow)
    (h : ∀ w ∈ rows, w.user_id ≠ call.userId) :
    insertedRows app { db with votes := db.votes ++ rows } call = insertedRows app db call := by
  have hany : (db.votes ++ rows).any (fun v => v.user_id == call.userId && v.poll_id == call.pollId)
      = db.votes.any (fun v => v.user_id == call.userId && v.poll_id == call.pollId) := by
    rw [List.any_append]
    have : rows.any (fun v => v.user_id == call.userId && v.poll_id == call.pollId) = false := by
      rw [List.any_eq_false]
      intro w hw
      simp [h w hw]
    rw [this, Bool.or_false]
  unfold insertedRows
  simp only [hany]

/-- The database after two calls of different users. -/
theorem voteTwice_eq (app : App) (db : Db) (c1 c2 : VoteCall) (hu : c1.userId ≠ c2.userId) :
    voteTwice app db c1 c2 =
      { db with votes := db.votes ++ insertedRows app db c1 ++ insertedRows app db c2 } := by
  unfold voteTwice
  rw [postVote_db_eq app db c1, postVote_db_eq]
  rw [insertedRows_append app db c2 (insertedRows app db c1)
    (fun w hw => by rw [insertedRows_user app db c1 w hw]; exact hu)]

/-- The aggregate row of a poll depends on the ledger rows up to their order. -/
theorem aggregateRow_perm (d1 d2 : Db) (p : PollRow) (uv : JsValue)
    (h : d1.votes.Perm d2.votes) : aggregateRow d1 p uv = aggregateRow d2 p uv := by
  have hj : (joinedVotes d1 p).Perm (joinedVotes d2 p) := h.filter _
  have hs : ∀ o, sumOption o (joinedVotes d1 p) = sumOption o (joinedVotes d2 p) :=
    fun o => (hj.map _).sum_eq
  simp only [aggregateRow, hs, countVotes, hj.length_eq]

/-- C19. Two vote calls of different users, on the same poll or not, leave the
same polls and the same vote rows in either order, the rows up to their order
in the table; so for every poll the aggregate row, and with it the counts
`votes.a`, `votes.b` and `totalVotes` of the view, are the same. -/
theorem votes_of_different_users_commute (app : App) (db : Db) (c1 c2 : VoteCall)
    (hu : c1.userId ≠ c2.userId) :
    (voteTwice app db c1 c2).polls = (voteTwice app db c2 c1).polls ∧
    (voteTwice app db c1 c2).votes.Perm (voteTwice app db c2 c1).votes ∧
    (∀ w, w ∈ (voteTwice app db c1 c2).votes ↔ w ∈ (voteTwice app db c2 c1).votes) ∧
    (∀ (p : PollRow) (uv : JsValue),
      (mapPollRow (aggregateRow (voteTwice app db c1 c2) p uv)).votes =
        (mapPollRow (aggregateRow (voteTwice app db c2 c1) p uv)).votes ∧
      (mapPollRow (aggregateRow (voteTwice app db c1 c2) p uv)).totalVotes =
        (mapPollRow (aggregateRow (voteTwice app db c2 c1) p uv)).totalVotes) := by
  have hperm : (voteTwice app db c1 c2).votes.Perm (voteTwice app db c2 c1).votes := by
    rw [voteTwice_eq app db c1 c2 hu, voteTwice_eq app db c2 c1 (Ne.symm hu)]
    simp only [List.append_assoc]
    exact List.Perm.append_left _ List.perm_append_comm
  refine ⟨?_, hperm, fun w => hperm.mem_iff, fun p uv => ?_⟩
  · rw [voteTwice_eq app db c1 c2 hu, voteTwice_eq app db c2 c1 (Ne.symm hu)]
  · rw [aggregateRow_perm _ _ p uv hperm]
    exact ⟨rfl, rfl⟩

/-- Users 1 and 2 vote A and B on poll 1, in both orders. -/
theorem votes_of_different_users_commute_witness :
    (voteTwice appFk ⟨[catsDogs], []⟩ (voteCall 1 1 "A") (voteCall 2 1 "B")).votes.Perm
      (voteTwice appFk ⟨[catsDogs], []⟩ (voteCall 2 1 "B") (voteCall 1 1 "A")).votes :=
  (votes_of_different_users_commute appFk ⟨[catsDogs], []⟩ (voteCall 1 1 "A") (voteCall 2 1 "B")
    (by decide)).2.1

/-! ## Poll creation -/

theorem imageErrorStatus_cases (message : String) :
    imageErrorStatus message = 400 ∨ imageErrorStatus message = 413 := by
  unfold imageErrorStatus
  split
  · exact Or.inr rfl
  · exact Or.inl rfl

theorem normalizeImageUrl_falsy (urlProtocol : String → Option String) (value : JsValue)
    (h : isFalsy value = true) : normalizeImageUrl urlProtocol value = .ok none := by
  unfold normalizeImageUrl
  rw [if_pos h]

/-- C20, at a request with a question, a type, and both options without text
and without image, sent to a store that puts no constraint on the option
columns: neither option is meaningful, and the handler answers 201 and the poll
is created with null option columns. -/
theorem create_poll_accepts_empty_options :
    optionMeaningful emptyOptionsBody.optionAText emptyOptionsBody.optionAImageUrl = false ∧
    optionMeaningful emptyOptionsBody.optionBText emptyOptionsBody.optionBImageUrl = false ∧
    createPoll noUrl (openStore 5 100) ⟨[catsDogs], []⟩ 1 emptyOptionsBody =
      { db := ⟨[catsDogs,
            { id := 5, question := "Which one?", type := "text-text"
              option_a_text := none, option_b_text := none
              option_a_image_url := none, option_b_image_url := none
              status := "approved", created_by := 1, ends_at := none, created_at := 100 }], []⟩
        outcome := .created 201 5 "approved" } := by
  decide

/-- C20 as amended.  The handler of `POST /` answers with an error exactly when
the question or the type is missing or empty, or an image reference fails
`normalizeImageUrl`; the status is then 400 or 413 and the database is the one
before.  It does not look at whether an option is meaningful: a request with a
question and a type whose two image references are empty is passed to the
insert whatever the option texts, each empty text as null, and when the store
keeps the row the answer is 201 with the id of the row and the poll is in the
table. -/
theorem create_poll_checks (urlProtocol : String → Option String)
    (insertPoll : PollParams → Option PollRow) (db : Db) (userId : Nat)
    (body : CreatePollBody) :
    ((∃ status msg, (createPoll urlProtocol insertPoll db userId body).outcome
        = .error status msg) ↔
      (isFalsy body.question = true ∨ isFalsy body.type = true ∨
        (∃ e, normalizeImageUrl urlProtocol body.optionAImageUrl = .error e) ∨
        (∃ e, normalizeImageUrl urlProtocol body.optionBImageUrl = .error e))) ∧
    (∀ status msg, (createPoll urlProtocol insertPoll db userId body).outcome
        = .error status msg →
      (status = 400 ∨ status = 413) ∧
      (createPoll urlProtocol insertPoll db userId body).db = db) ∧
    (isFalsy body.question = false → isFalsy body.type = false →
      isFalsy body.optionAImageUrl = true → isFalsy body.optionBImageUrl = true →
      ∀ row,
        insertPoll
          { question := body.question
            type := body.type
            option_a_text := orNull body.optionAText
            option_b_text := orNull body.optionBText
            option_a_image_url := none
            option_b_image_url := none
            status := "approved"
            created_by := userId
            ends_at := orNull body.endsAt } = some row →
        createPoll urlProtocol insertPoll db userId body =
          { db := { db with polls := db.polls ++ [row] }
            outcome := .created 201 row.id "approved" }) := by
  refine ⟨?_, ?_, ?_⟩
  · unfold createPoll
    cases hq : isFalsy body.question
    · cases ht : isFalsy body.type
      · simp only [Bool.or_self, Bool.false_eq_true, if_false, false_or]
        cases ha : normalizeImageUrl urlProtocol body.optionAImageUrl with
        | error e => simp
        | ok a =>
          cases hb : normalizeImageUrl urlProtocol body.optionBImageUrl with
          | error e => simp
          | ok b =>
            simp only
            split <;> simp
      · simp
    · simp
  · intro status msg h
    unfold createPoll at h ⊢
    split at h
    · simp only [CreateOutcome.error.injEq] at h
      rename_i hc
      simp only [hc, if_true]
      exact ⟨Or.inl h.1.symm, trivial⟩
    · rename_i hc
      simp only [hc, if_false]
      split at h
      · simp only [CreateOutcome.error.injEq] at h
        rename_i e ha
        refine ⟨?_, by simp⟩
        rw [← h.1]
        exact imageErrorStatus_cases _
      · split at h
        · simp only [CreateOutcome.error.injEq] at h
          rename_i e hb
          refine ⟨?_, by simp⟩
          rw [← h.1]
          exact imageErrorStatus_cases _
        · split at h <;> simp at h
  · intro hq ht ha hb row hrow
    unfold createPoll
    rw [hq, ht, normalizeImageUrl_falsy urlProtocol _ ha, normalizeImageUrl_falsy urlProtocol _ hb]
    simp only [Bool.or_self, Bool.false_eq_true, if_false]
    rw [hrow]

/-- The request with empty options, at a store without constraints. -/
theorem create_poll_checks_witness :
    createPoll noUrl (openStore 5 100) ⟨[catsDogs], []⟩ 1 emptyOptionsBody =
      { db := ⟨[catsDogs] ++
            [{ id := 5, question := "Which one?", type := "text-text"
               option_a_text := none, option_b_text := none
               option_a_image_url := none, option_b_image_url := none
               status := "approved", created_by := 1, ends_at := none, created_at := 100 }], []⟩
        outcome := .created 201 5 "approved" } :=
  (create_poll_checks noUrl (openStore 5 100) ⟨[catsDogs], []⟩ 1 emptyOptionsBody).2.2
    rfl rfl rfl rfl _ rfl

/-! ## The client list of polls -/

theorem pollUpdate_ids_of_exists (polls : List PollView) (updated : PollView) :
    (polls.map (fun poll => if poll.id == updated.id then updated else poll)).map (fun v => v.id)
      = polls.map (fun v => v.id) := by
  rw [List.map_map]
  apply List.map_congr_left
  intro poll _
  simp only [Function.comp]
  by_cases h : poll.id = updated.id
  · simp [h]
  · simp [h]

/-- The ids `dedupSeen` keeps are distinct and none of them was seen. -/
theorem dedupSeen_nodup (polls : List PollView) : ∀ seen : List Nat,
    ((dedupSeen seen polls).map (fun v => v.id)).Nodup ∧
      ∀ v ∈ dedupSeen seen polls, v.id ∉ seen := by
  induction polls with
  | nil => intro seen; simp [dedupSeen]
  | cons poll rest ih =>
    intro seen
    unfold dedupSeen
    by_cases h : seen.contains poll.id = true
    · rw [if_pos h]
      exact ih seen
    · rw [if_neg h]
      obtain ⟨h1, h2⟩ := ih (poll.id :: seen)
      constructor
      · rw [List.map_cons, List.nodup_cons]
        refine ⟨?_, h1⟩
        intro hmem
        obtain ⟨v, hv, hid⟩ := List.mem_map.1 hmem
        exact h2 v hv (by rw [hid]; exact List.mem_cons_self _ _)
      · intro v hv
        rcases List.mem_cons.1 hv with rfl | hv
        · simpa using h
        · exact fun hs => h2 v hv (List.mem_cons_of_mem _ hs)

/-- C25. The handler of `poll:update` on the list `L` of the client and the
incoming view `u`.  When an element of `L` has the id of `u`, the result has the
length of `L`, holds `u` at every position where `L` holds an element with that
id and the element of `L` at every other position.  Otherwise the result is `u`
followed by `L`.  When the ids of `L` are pairwise distinct, so are the ids of
the result; and the list `refreshPolls` stores has pairwise distinct ids. -/
theorem poll_update_merge (polls : List PollView) (updated : PollView) :
    ((∃ poll ∈ polls, poll.id = updated.id) →
      (pollUpdate polls updated).length = polls.length ∧
      ∀ (i : Nat) (h1 : i < (pollUpdate polls updated).length) (h2 : i < polls.length),
        ((polls.get ⟨i, h2⟩).id = updated.id →
          (pollUpdate polls updated).get ⟨i, h1⟩ = updated) ∧
        ((polls.get ⟨i, h2⟩).id ≠ updated.id →
          (pollUpdate polls updated).get ⟨i, h1⟩ = polls.get ⟨i, h2⟩)) ∧
    ((∀ poll ∈ polls, poll.id ≠ updated.id) → pollUpdate polls updated = updated :: polls) ∧
    ((polls.map (fun v => v.id)).Nodup →
      ((pollUpdate polls updated).map (fun v => v.id)).Nodup) ∧
    (∀ fetched : List PollView, ((refreshPolls fetched).map (fun v => v.id)).Nodup) := by
  refine ⟨?_, ?_, ?_, ?_⟩
  · rintro ⟨poll, hmem, hid⟩
    have hany : polls.any (fun poll => poll.id == updated.id) = true := by
      rw [List.any_eq_true]
      exact ⟨poll, hmem, by simpa using hid⟩
    have heq : pollUpdate polls updated =
        polls.map (fun poll => if poll.id == updated.id then updated else poll) := by
      unfold pollUpdate
      rw [if_pos hany]
    refine ⟨by rw [heq, List.length_map], ?_⟩
    intro i h1 h2
    have hget : (pollUpdate polls updated).get ⟨i, h1⟩ =
        (if (polls.get ⟨i, h2⟩).id == updated.id then updated else polls.get ⟨i, h2⟩) := by
      simp only [heq, List.get_eq_getElem, List.getElem_map]
    rw [hget]
    constructor
    · intro h
      rw [if_pos (by rw [h]; exact beq_self_eq_true _)]
    · intro h
      rw [if_neg (by simpa using h)]
  · intro h
    have hany : polls.any (fun poll => poll.id == updated.id) = false := by
      rw [List.any_eq_false]
      intro poll hmem
      simpa using h poll hmem
    unfold pollUpdate
    rw [hany]
    simp
  · intro hnd
    unfold pollUpdate
    split
    · rw [pollUpdate_ids_of_exists]
      exact hnd
    · rename_i hany
      rw [List.map_cons, List.nodup_cons]
      refine ⟨?_, hnd⟩
      intro hmem
      obtain ⟨v, hv, hid⟩ := List.mem_map.1 hmem
      apply hany
      rw [List.any_eq_true]
      exact ⟨v, hv, by simpa using hid⟩
  · intro fetched
    exact (dedupSeen_nodup fetched []).1

/-- The client holds the polls 1 and 2; an update of poll 2 replaces it in
place. -/
theorem poll_update_merge_witness :
    (pollUpdate [viewOf 1 0 0, viewOf 2 0 0] (viewOf 2 1 0)).length = 2 ∧
    pollUpdate [viewOf 1 0 0, viewOf 2 0 0] (viewOf 2 1 0) = [viewOf 1 0 0, viewOf 2 1 0] ∧
    pollUpdate [viewOf 1 0 0, viewOf 2 0 0] (viewOf 3 1 0)
      = [viewOf 3 1 0, viewOf 1 0 0, viewOf 2 0 0] :=
  ⟨((poll_update_merge [viewOf 1 0 0, viewOf 2 0 0] (viewOf 2 1 0)).1
      ⟨viewOf 2 0 0, by simp, rfl⟩).1,
    by decide,
    (poll_update_merge [viewOf 1 0 0, viewOf 2 0 0] (viewOf 3 1 0)).2.1 (by decide)⟩

/-! ## Image references -/

/-- The two errors of `normalizeImageUrl`. -/
theorem normalizeImageUrl_error (urlProtocol : String → Option String) (value : JsValue)
    (e : String) (h : normalizeImageUrl urlProtocol value = .error e) :
    e = "Image data is too large." ∨ e = "Invalid image URL." := by
  unfold normalizeImageUrl at h
  split at h
  · cases h
  · split at h
    · simp only at h
      split at h
      · cases h
      · split at h
        · split at h
          · cases h; exact Or.inl rfl
          · cases h
        · split at h
          · cases h; exact Or.inr rfl
          · split at h
            · cases h
            · cases h; exact Or.inr rfl
    · cases h; exact Or.inr rfl

/-- The status and message the `catch` of `POST /` answers for an error of
`normalizeImageUrl`. -/
theorem image_error_response (urlProtocol : String → Option String) (value : JsValue)
    (e : String) (h : normalizeImageUrl urlProtocol value = .error e) :
    (if e = "" then "Invalid image URL." else e) = e ∧
      imageErrorStatus e = (if e = "Image data is too large." then 413 else 400) := by
  rcases normalizeImageUrl_error urlProtocol value e h with rfl | rfl
  · exact ⟨by decide, by decide⟩
  · exact ⟨by decide, by decide⟩

theorem string_ne_empty_of_prefix (t : String)
    (h : "data:image/".toList.isPrefixOf t.toList = true) : t ≠ "" := by
  rintro rfl
  exact absurd h (by decide)

/-- C24. The function `normalizeImageUrl` returns null for every falsy value and
for every string that is empty after trimming.  For a string whose trimmed form
starts with "data:image/" it returns the trimmed form when that has at most
1,500,000 UTF-16 units and throws "Image data is too large." when it has more.
For every truthy value that is not a string it throws "Invalid image URL.".
And `POST /`, the question and the type present, answers the first image
reference that fails, option A before option B, with the message of its error,
the status 413 when that message is "Image data is too large." and 400
otherwise, and the database unchanged. -/
theorem normalize_image_url_cases (urlProtocol : String → Option String) :
    (∀ value, isFalsy value = true → normalizeImageUrl urlProtocol value = .ok none) ∧
    (∀ s, jsTrim s = "" → normalizeImageUrl urlProtocol (.string s) = .ok none) ∧
    (∀ s, "data:image/".toList.isPrefixOf (jsTrim s).toList = true →
      (jsLength (jsTrim s) ≤ 1500000 →
        normalizeImageUrl urlProtocol (.string s) = .ok (some (jsTrim s))) ∧
      (1500000 < jsLength (jsTrim s) →
        normalizeImageUrl urlProtocol (.string s) = .error "Image data is too large.")) ∧
    (∀ value, isFalsy value = false → (∀ s, value ≠ .string s) →
      normalizeImageUrl urlProtocol value = .error "Invalid image URL.") ∧
    (∀ (insertPoll : PollParams → Option PollRow) (db : Db) (userId : Nat)
        (body : CreatePollBody),
      isFalsy body.question = false → isFalsy body.type = false →
      (∀ e, normalizeImageUrl urlProtocol body.optionAImageUrl = .error e →
        createPoll urlProtocol insertPoll db userId body =
          { db := db
            outcome := .error (if e = "Image data is too large." then 413 else 400) e }) ∧
      (∀ a e, normalizeImageUrl urlProtocol body.optionAImageUrl = .ok a →
        normalizeImageUrl urlProtocol body.optionBImageUrl = .error e →
        createPoll urlProtocol insertPoll db userId body =
          { db := db
            outcome := .error (if e = "Image data is too large." then 413 else 400) e })) := by
  refine ⟨?_, ?_, ?_, ?_, ?_⟩
  · intro value h
    exact normalizeImageUrl_falsy urlProtocol value h
  · intro s h
    unfold normalizeImageUrl
    split
    · rfl
    · simp only [h, if_true]
  · intro s hp
    have hne : jsTrim s ≠ "" := string_ne_empty_of_prefix _ hp
    have hs : isFalsy (.string s) = false := by
      cases hf : isFalsy (.string s) with
      | false => rfl
      | true =>
        have : s = "" := by simpa [isFalsy] using hf
        subst this
        exact absurd (show jsTrim "" = "" by decide) hne
    constructor
    · intro hlen
      unfold normalizeImageUrl
      simp only [hs, Bool.false_eq_true, if_false, hne, hp, if_true, MAX_DATA_URL_LENGTH]
      rw [if_neg (by omega)]
    · intro hlen
      unfold normalizeImageUrl
      simp only [hs, Bool.false_eq_true, if_false, hne, hp, if_true, MAX_DATA_URL_LENGTH]
      rw [if_pos hlen]
  · intro value hf hns
    unfold normalizeImageUrl
    rw [if_neg (by simp [hf])]
    cases value with
    | string s => exact absurd rfl (hns s)
    | undefined => rfl
    | null => rfl
    | bool b => rfl
    | number n => rfl
    | object => rfl
  · intro insertPoll db userId body hq ht
    constructor
    · intro e he
      obtain ⟨h1, h2⟩ := image_error_response urlProtocol _ e he
      unfold createPoll
      simp only [hq, ht, Bool.or_self, Bool.false_eq_true, if_false, he]
      rw [h1, h2]
    · intro a e ha he
      obtain ⟨h1, h2⟩ := image_error_response urlProtocol _ e he
      unfold createPoll
      simp only [hq, ht, Bool.or_self, Bool.false_eq_true, if_false, ha, he]
      rw [h1, h2]

/-- A request whose image of option A is the number 5 is answered 400; the
padded data URL " data:image/png;base64,AA " is returned trimmed. -/
theorem normalize_image_url_cases_witness :
    createPoll noUrl (openStore 5 100) ⟨[catsDogs], []⟩ 1
        { emptyOptionsBody with optionAImageUrl := .number 5 } =
      { db := ⟨[catsDogs], []⟩, outcome := .error 400 "Invalid image URL." } ∧
    normalizeImageUrl noUrl (.string " data:image/png;base64,AA ")
      = .ok (some "data:image/png;base64,AA") :=
  ⟨((normalize_image_url_cases noUrl).2.2.2.2 (openStore 5 100) ⟨[catsDogs], []⟩ 1
      { emptyOptionsBody with optionAImageUrl := .number 5 } rfl rfl).1
      "Invalid image URL." rfl,
    ((normalize_image_url_cases noUrl).2.2.1 " data:image/png;base64,AA " (by decide)).1
      (by decide)⟩

/-! ## What a vote call does not look at and does not touch -/

/-- The inserted rows carry the poll of the call. -/
theorem insertedRows_poll (app : App) (db : Db) (call : VoteCall) :
    ∀ w ∈ insertedRows app db call, w.poll_id = call.pollId := by
  intro w hw
  unfold insertedRows at hw
  split at hw
  · cases hw
  · split at hw
    · cases hw
    · split at hw
      · cases hw
      · split at hw
        · cases hw
        · rw [List.mem_singleton.1 hw]

/-- The counts of the first row of the recompute query, in terms of the vote
rows and the requested id alone. -/
theorem voteResultsQuery_head_counts (db : Db) (pollId : Nat) (row : AggRow)
    (h : (voteResultsQuery db pollId).head? = some row) :
    row.votes_a = sumOption "A" (db.votes.filter (fun v => v.poll_id == pollId)) ∧
      row.votes_b = sumOption "B" (db.votes.filter (fun v => v.poll_id == pollId)) ∧
      row.total_votes = countVotes (db.votes.filter (fun v => v.poll_id == pollId)) := by
  rw [voteResultsQuery_head] at h
  cases hf : db.polls.find? (fun p => p.id == pollId) with
  | none => rw [hf] at h; simp at h
  | some p =>
    rw [hf] at h
    simp only [Option.map_some', Option.some.injEq] at h
    have hid : p.id = pollId := by simpa using List.find?_some hf
    rw [← h]
    simp [aggregateRow, joinedVotes, hid]

/-- The view of a row is determined by its counts, apart from the poll columns
and `userVote`. -/
theorem mapPollRow_counts (r1 r2 : AggRow) (ha : r1.votes_a = r2.votes_a)
    (hb : r1.votes_b = r2.votes_b) (ht : r1.total_votes = r2.total_votes) :
    (mapPollRow r1).votes = (mapPollRow r2).votes ∧
      (mapPollRow r1).totalVotes = (mapPollRow r2).totalVotes ∧
      (mapPollRow r1).percents = (mapPollRow r2).percents := by
  simp [mapPollRow, ha, hb, ht]

/-- A first vote with a valid option on an existing poll, the store working. -/
theorem postVote_fresh (app : App) (db : Db) (call : VoteCall) (o : String)
    (hopt : call.option = .string o) (ho : o = "A" ∨ o = "B")
    (hnew : votesOf db call.userId call.pollId = 0) (hs : call.storageFails = false)
    (hp : pollExists db call.pollId = true) :
    (postVote app db call).db =
        { db with votes := db.votes ++
          [{ user_id := call.userId, poll_id := call.pollId, option := o }] } ∧
      ∃ row, (voteResultsQuery { db with votes := db.votes ++
          [{ user_id := call.userId, poll_id := call.pollId, option := o }] }
            call.pollId).head? = some row ∧
        (postVote app db call).outcome = .response 200 (.view (mapPollRow row)) := by
  have hi : includesAB call.option = some o := by rw [hopt]; exact includesAB_string ho
  have ht := withTransaction_fresh app db call o hs hnew hp
  obtain ⟨row, hr⟩ := voteResultsQuery_head_of_exists
    { db with votes := db.votes ++
      [{ user_id := call.userId, poll_id := call.pollId, option := o }] } call.pollId hp
  rw [postVote_ok app db _ call o row hi ht hr]
  exact ⟨rfl, row, hr, rfl⟩

/-- C22. The handler of the vote route does not look at the status or the
expiry of the poll.  For every existing poll, whatever its status and
`ends_at`, a call of a user without a vote on it, with option A or B and the
store working, appends the vote row and answers 200 with the view.  And in
every database with the same vote rows in which a poll with the id exists, with
whatever status and expiry, the same call leaves the same vote rows and answers
200 with the same counts, total and percentages. -/
theorem vote_ignores_status_and_expiry (app : App) (db : Db) (call : VoteCall) (o : String)
    (p : PollRow) (hp : p ∈ db.polls) (hid : p.id = call.pollId)
    (hopt : call.option = .string o) (ho : o = "A" ∨ o = "B")
    (hnew : votesOf db call.userId call.pollId = 0) (hs : call.storageFails = false) :
    (postVote app db call).db =
      { db with votes := db.votes ++
        [{ user_id := call.userId, poll_id := call.pollId, option := o }] } ∧
    (∃ row, (postVote app db call).outcome = .response 200 (.view (mapPollRow row))) ∧
    (∀ db2 : Db, db2.votes = db.votes → pollExists db2 call.pollId = true →
      (postVote app db2 call).db.votes = (postVote app db call).db.votes ∧
      ∃ row row2,
        (postVote app db call).outcome = .response 200 (.view (mapPollRow row)) ∧
        (postVote app db2 call).outcome = .response 200 (.view (mapPollRow row2)) ∧
        (mapPollRow row2).votes = (mapPollRow row).votes ∧
        (mapPollRow row2).totalVotes = (mapPollRow row).totalVotes ∧
        (mapPollRow row2).percents = (mapPollRow row).percents) := by
  have hex : pollExists db call.pollId = true := by
    simp only [pollExists, List.any_eq_true]
    exact ⟨p, hp, by simpa using hid⟩
  obtain ⟨h1, row, hr, hout⟩ := postVote_fresh app db call o hopt ho hnew hs hex
  refine ⟨h1, ⟨row, hout⟩, ?_⟩
  intro db2 hv hex2
  have hnew2 : votesOf db2 call.userId call.pollId = 0 := by
    unfold votesOf at hnew ⊢
    rw [hv]
    exact hnew
  obtain ⟨h2, row2, hr2, hout2⟩ := postVote_fresh app db2 call o hopt ho hnew2 hs hex2
  refine ⟨by rw [h1, h2, hv], row, row2, hout, hout2, ?_⟩
  obtain ⟨a1, b1, t1⟩ := voteResultsQuery_head_counts _ _ _ hr
  obtain ⟨a2, b2, t2⟩ := voteResultsQuery_head_counts _ _ _ hr2
  simp only [hv] at a2 b2 t2
  exact mapPollRow_counts row2 row (a2.trans a1.symm) (b2.trans b1.symm) (t2.trans t1.symm)

/-- User 2 votes B on poll 1 where user 1 voted A: once with the poll rejected
and expired at time 3, once with the poll approved and without expiry. -/
theorem vote_ignores_status_and_expiry_witness :
    (postVote appFk ⟨[pollWith 1 "rejected" (some 3)], [⟨1, 1, "A"⟩]⟩ (voteCall 2 1 "B")).db =
      ⟨[pollWith 1 "rejected" (some 3)], [⟨1, 1, "A"⟩, ⟨2, 1, "B"⟩]⟩ ∧
    (postVote appFk ⟨[pollWith 1 "approved" none], [⟨1, 1, "A"⟩]⟩ (voteCall 2 1 "B")).db.votes =
      (postVote appFk ⟨[pollWith 1 "rejected" (some 3)], [⟨1, 1, "A"⟩]⟩
        (voteCall 2 1 "B")).db.votes :=
  have h := vote_ignores_status_and_expiry appFk
    ⟨[pollWith 1 "rejected" (some 3)], [⟨1, 1, "A"⟩]⟩ (voteCall 2 1 "B") "B"
    (pollWith 1 "rejected" (some 3)) (by simp) rfl rfl (Or.inr rfl) (by decide) rfl
  ⟨h.1, (h.2.2 ⟨[pollWith 1 "approved" none], [⟨1, 1, "A"⟩]⟩ rfl (by decide)).1⟩

/-- The rows joined to another poll are the same after a call. -/
theorem joinedVotes_postVote (app : App) (db : Db) (call : VoteCall) (q : PollRow)
    (h : q.id ≠ call.pollId) :
    joinedVotes (postVote app db call).db q = joinedVotes db q := by
  rw [postVote_db_eq]
  unfold joinedVotes
  simp only [List.filter_append]
  have : (insertedRows app db call).filter (fun v => v.poll_id == q.id) = [] := by
    rw [List.filter_eq_nil_iff]
    intro w hw
    rw [insertedRows_poll app db call w hw]
    simpa using fun hc => h hc.symm
  rw [this, List.append_nil]

/-- C23. A vote call on poll `p`, whatever its result, leaves the polls as they
are and keeps every vote row in its place, the new list of rows being the old
one with rows appended; for every other poll `q` the rows joined to `q` are the
same, so the view of `q` for any viewer, with its counts, total, percentages
and `userVote`, and the answer of `GET /:pollId` for `q`, are the same before
and after the call. -/
theorem vote_leaves_other_polls (app : App) (db : Db) (call : VoteCall) :
    (postVote app db call).db.polls = db.polls ∧
    db.votes <+: (postVote app db call).db.votes ∧
    (∀ q : PollRow, q.id ≠ call.pollId →
      joinedVotes (postVote app db call).db q = joinedVotes db q ∧
      ∀ viewer : Option Nat,
        mapPollRow (aggregateRow (postVote app db call).db q
            (maxUserVote viewer (joinedVotes (postVote app db call).db q))) =
          mapPollRow (aggregateRow db q (maxUserVote viewer (joinedVotes db q)))) ∧
    (∀ (pollId : Nat) (viewer : Option Nat) (comments : List CommentView),
      pollId ≠ call.pollId →
      getPollById (postVote app db call).db viewer pollId comments =
        getPollById db viewer pollId comments) := by
  have hagg : ∀ q : PollRow, q.id ≠ call.pollId → ∀ viewer : Option Nat,
      aggregateRow (postVote app db call).db q
          (maxUserVote viewer (joinedVotes (postVote app db call).db q)) =
        aggregateRow db q (maxUserVote viewer (joinedVotes db q)) := by
    intro q hq viewer
    simp only [aggregateRow, joinedVotes_postVote app db call q hq]
  refine ⟨postVote_polls app db call, ?_, ?_, ?_⟩
  · rw [postVote_db_eq]
    exact List.prefix_append _ _
  · intro q hq
    exact ⟨joinedVotes_postVote app db call q hq, fun viewer => by rw [hagg q hq viewer]⟩
  · intro pollId viewer comments hne
    rw [getPollById_eq, getPollById_eq, postVote_polls]
    cases hf : db.polls.find? (fun p => p.id == pollId) with
    | none => rfl
    | some q =>
      have hid : q.id = pollId := by simpa using List.find?_some hf
      simp only
      rw [hagg q (by rw [hid]; exact hne) viewer]

/-- User 2 votes B on poll 1; poll 2, on which user 1 voted A, reads the same. -/
theorem vote_leaves_other_polls_witness :
    getPollById (postVote appFk ⟨[catsDogs, pollWith 2 "approved" none], [⟨1, 2, "A"⟩]⟩
        (voteCall 2 1 "B")).db (some 1) 2 [] =
      getPollById ⟨[catsDogs, pollWith 2 "approved" none], [⟨1, 2, "A"⟩]⟩ (some 1) 2 [] :=
  (vote_leaves_other_polls appFk ⟨[catsDogs, pollWith 2 "approved" none], [⟨1, 2, "A"⟩]⟩
    (voteCall 2 1 "B")).2.2.2 2 (some 1) [] (by decide)

/-! ## The sum of the percentages -/

/-- The percentage of the specification is the quotient of `100 * v` by the
total, plus one when twice the remainder reaches the total. -/
theorem specPercent_eq (v t : Nat) (ht : 0 < t) :
    specPercent v t = 100 * v / t + (if t ≤ 2 * (100 * v % t) then 1 else 0) := by
  unfold specPercent
  rw [if_neg (by omega)]
  have hdm := Nat.div_add_mod (100 * v) t
  have hr := Nat.mod_lt (100 * v) ht
  generalize 100 * v / t = q at hdm ⊢
  generalize 100 * v % t = r at hdm hr ⊢
  have e : 2 * (100 * v) + t = (2 * r + t) + 2 * t * q := by
    have : 2 * (t * q) = 2 * t * q := by ring
    omega
  rw [e, Nat.add_mul_div_left _ _ (by omega : 0 < 2 * t)]
  have : (2 * r + t) / (2 * t) = if t ≤ 2 * r then 1 else 0 := by
    split
    · exact Nat.div_eq_of_lt_le (by omega) (by omega)
    · exact Nat.div_eq_of_lt (by omega)
  omega

/-- Over the rationals, with halves rounded up, the two percentages of a
positive total add up to 100 or 101, and to 101 exactly when `100 * a / total`
has the fractional part one half. -/
theorem specPercent_sum (a b : Nat) (h : 0 < a + b) :
    (specPercent a (a + b) + specPercent b (a + b) = 100 ∨
      specPercent a (a + b) + specPercent b (a + b) = 101) ∧
    (specPercent a (a + b) + specPercent b (a + b) = 101 ↔
      2 * (100 * a % (a + b)) = a + b) := by
  rw [specPercent_eq a _ h, specPercent_eq b _ h]
  have ha := Nat.div_add_mod (100 * a) (a + b)
  have hb := Nat.div_add_mod (100 * b) (a + b)
  have hra := Nat.mod_lt (100 * a) h
  have hrb := Nat.mod_lt (100 * b) h
  generalize 100 * a / (a + b) = qa at ha ⊢
  generalize 100 * b / (a + b) = qb at hb ⊢
  generalize 100 * a % (a + b) = ra at ha hra ⊢
  generalize 100 * b % (a + b) = rb at hb hrb ⊢
  generalize hT : a + b = t at *
  have hsum : t * (qa + qb) + (ra + rb) = 100 * t := by
    have : t * (qa + qb) = t * qa + t * qb := by ring
    omega
  have hle : qa + qb ≤ 100 := by
    by_contra hc
    have := Nat.mul_le_mul_left t (by omega : 101 ≤ qa + qb)
    omega
  have hge : 99 ≤ qa + qb := by
    by_contra hc
    have := Nat.mul_le_mul_left t (by omega : qa + qb ≤ 98)
    omega
  rcases Nat.lt_or_ge (qa + qb) 100 with h99 | h100
  · have hq : qa + qb = 99 := by omega
    rw [hq] at hsum
    have hr : ra + rb = t := by omega
    constructor
    · split <;> split <;> omega
    · split <;> split <;> omega
  · have hq : qa + qb = 100 := by omega
    rw [hq] at hsum
    have hr : ra + rb = 0 := by omega
    constructor
    · split <;> split <;> omega
    · split <;> split <;> omega

/-- C21, at a poll with 23 votes for A and 17 for B.  The exact percentage of A
is 57.5, with fractional part one half, and with halves rounded up the two
percentages are 58 and 43 and add up to 101; `mapPollRow` yields 57 and 43,
which add up to 100.  At the example of the claim, 1 vote and 199 votes, it
yields 1 and 100. -/
theorem percents_sum_at_tie :
    (mapPollRow (countsRow 23 17 40)).percents = ⟨57, 43⟩ ∧
    (mapPollRow (countsRow 23 17 40)).percents.a + (mapPollRow (countsRow 23 17 40)).percents.b
      = 100 ∧
    2 * (100 * 23 % 40) = 40 ∧
    specPercent 23 40 + specPercent 17 40 = 101 ∧
    (mapPollRow (countsRow 1 199 200)).percents = ⟨1, 100⟩ := by
  decide

end ThisOrThat
